import Mathlib

/-! # Static reporter and dynamic instrumenter of `lab2`

A shallow embedding of `lab2/src/StaticAnalysisPass.cpp` and
`lab2/src/DynamicAnalysisPass.cpp`, together with the part of the LLVM object
model the two passes touch, followed by theorems about the passes.

Conventions of the embedding.

* A module is a list of functions, a function a list of basic blocks, a basic
  block a list of instructions.  `inst_begin(F) .. inst_end(F)` is the
  concatenation of the blocks.
* An instruction object is identified by its address (`Instruction *` in the
  source).  Distinct objects have distinct addresses (`Module.UniqueAddrs`); a
  new instruction is allocated at an address no instruction of the module has.
* A module holds functions only: global variables and aliases are left out,
  so a name is bound to a function or to nothing.
* `CallInst::Create` compares the arguments with the signature of the callee
  only by assertion; the call is created unchecked here.
* `outs()` is a text stream, threaded through the passes as a `String`.
* The helpers of `Utils.h` (`getBinOpSymbol`, `getBinOpName`, `variable`) are
  not part of the embedded sources; the passes take them as a parameter
  (`Utils`).
-/

namespace instrument

/-! ## The object model -/

/-- The IR types the passes mention: `void`, the integer types, and all others. -/
inductive Ty where
  | void
  | int (bits : Nat)
  | other (tag : Nat)
  deriving DecidableEq, Repr

/-- Function signature: return type and parameter types (never variadic here). -/
structure FunctionType where
  ret : Ty
  params : List Ty
  deriving DecidableEq, Repr

/-- Operand references.  `constantInt bits val` is the integer constant of type
`i<bits>` whose bit pattern is `val`; every other value is either named or
identified by its slot number. -/
inductive Value where
  | constantInt (bits : Nat) (val : Nat)
  | named (name : String)
  | unnamed (slot : Nat)
  deriving DecidableEq, Repr

/-- The opcodes of `Instruction::BinaryOps`. -/
inductive BinaryOps where
  | Add | FAdd | Sub | FSub | Mul | FMul | UDiv | SDiv | FDiv
  | URem | SRem | FRem | Shl | LShr | AShr | And | Or | Xor
  deriving DecidableEq, Repr

/-- What an instruction is: a `BinaryOperator` with its two operands, a
`CallInst` with the called function (name and type) and its arguments, or any
other instruction. -/
inductive InstKind where
  | binaryOperator (op : BinaryOps) (op0 op1 : Value)
  | call (callee : String) (fty : FunctionType) (args : List Value)
  | other (opcode : String) (operands : List Value)
  deriving DecidableEq, Repr

/-- A present `llvm::DebugLoc`: `getLine()` and `getCol()` are `unsigned`. -/
structure DebugLoc where
  line : Nat
  col : Nat
  deriving DecidableEq, Repr

/-- An instruction object: its address, what it is, and its debug location
(`none` when `!DebugLoc`). -/
structure Instruction where
  addr : Nat
  kind : InstKind
  debugLoc : Option DebugLoc
  deriving DecidableEq, Repr

/-- Basic block: its instructions in order. -/
abbrev BasicBlock := List Instruction

/-- A function of a module; it is a declaration when it has no basic block. -/
structure Function where
  name : String
  type : FunctionType
  blocks : List BasicBlock
  deriving DecidableEq, Repr

/-- A module: its name and its function list, in order. -/
structure Module where
  name : String
  functions : List Function
  deriving DecidableEq, Repr

/-- What `getOrInsertFunction` returns: the requested type and the function found
or created. -/
structure FunctionCallee where
  fty : FunctionType
  callee : Function
  deriving DecidableEq, Repr

/-- The result a pass declares. -/
inductive PreservedAnalyses where
  | all
  | none
  deriving DecidableEq, Repr

/-- The helpers of `Utils.h`, which the passes call and which are taken as a
parameter: `getBinOpSymbol`, `getBinOpName` and `variable` (here `variableOf`,
since `variable` is a keyword). -/
structure Utils where
  getBinOpSymbol : BinaryOps → Char
  getBinOpName : Char → String
  variableOf : Value → String

/-! ## LLVM primitives used by the passes -/

def VoidType : Ty := Ty.void

def Int32Type : Ty := Ty.int 32

def Int8Type : Ty := Ty.int 8

/-- Bit width of an integer type (`0` for a type that is not an integer type). -/
def Ty.getIntegerBitWidth : Ty → Nat
  | Ty.int bits => bits
  | _ => 0

/-- The call `ConstantInt::get(Ty, V)`: the constant of the integer type `Ty` whose bit
pattern is `V` truncated to the width of the type. -/
def ConstantInt.get (T : Ty) (V : Int) : Value :=
  Value.constantInt T.getIntegerBitWidth (V % 2 ^ T.getIntegerBitWidth).toNat

/-- Conversion `unsigned` to `int` as in `int Line = DebugLoc.getLine()`. -/
def toInt (n : Nat) : Int :=
  if n % 2 ^ 32 < 2 ^ 31 then (n % 2 ^ 32 : Nat) else ((n % 2 ^ 32 : Nat) : Int) - 2 ^ 32

/-- The test `F.isDeclaration()`. -/
def Function.isDeclaration (F : Function) : Bool := F.blocks.isEmpty

/-- The instructions of a function in the order of `inst_iterator`. -/
def Function.insts (F : Function) : List Instruction := F.blocks.flatten

/-- The call `M.getFunction(Name)`: the function of that name, `none` for a null result. -/
def Module.getFunction (M : Module) (Name : String) : Option Function :=
  M.functions.find? (fun F => F.name == Name)

/-- The call `M.getOrInsertFunction(Name, Ret, Params...)`: when no function of that name
exists a declaration with the given signature is appended to the function list;
an existing function is returned as it is, whatever its signature. -/
def Module.getOrInsertFunction (M : Module) (Name : String) (Ret : Ty) (Params : List Ty) :
    FunctionCallee × Module :=
  match M.getFunction Name with
  | some F => (⟨⟨Ret, Params⟩, F⟩, M)
  | Option.none =>
    let New : Function := ⟨Name, ⟨Ret, Params⟩, []⟩
    (⟨⟨Ret, Params⟩, New⟩, { M with functions := M.functions ++ [New] })

/-- All instructions of a module. -/
def Module.allInsts (M : Module) : List Instruction := M.functions.flatMap Function.insts

/-- An address no instruction of the module has: where the next instruction
object is allocated. -/
def Module.freshAddr (M : Module) : Nat := (M.allInsts.map (fun x => x.addr)).foldr max 0 + 1

/-- Replace every instruction `x` of a function by the list `f x`, block by block. -/
def Function.bindInsts (f : Instruction → List Instruction) (F : Function) : Function :=
  { F with blocks := F.blocks.map (fun b => b.flatMap f) }

/-- Replace every instruction `x` of a module by the list `f x`. -/
def Module.bindInsts (f : Instruction → List Instruction) (M : Module) : Module :=
  { M with functions := M.functions.map (Function.bindInsts f) }

/-- Insert `New` into the basic block of the instruction object `I`, directly
before it.  The object is found by its address; addresses being unique
(`Module.UniqueAddrs`, stated further down), it is the one instruction `I`. -/
def Module.insertBefore (M : Module) (I : Instruction) (New : Instruction) : Module :=
  M.bindInsts (fun x => if x.addr = I.addr then [New, x] else [x])

/-- The call `CallInst::Create(Func, Args, "", InsertBefore)`: a new call instruction,
without debug location, inserted directly before `InsertBefore`.  No signature
check is made on the arguments. -/
def CallInst.Create (M : Module) (Func : Function) (Args : List Value)
    (InsertBefore : Instruction) : Module :=
  M.insertBefore InsertBefore ⟨M.freshAddr, InstKind.call Func.name Func.type Args, Option.none⟩

/-! ## `DynamicAnalysisPass.cpp` -/

def COVERAGE_FUNCTION_NAME : String := "__coverage__"

def BINOP_OPERANDS_FUNCTION_NAME : String := "__binop_op__"

/-- The function `instrumentCoverage(M, I, Line, Col)`.  A null `CoverageFunction` makes the
call creation dereference a null pointer: the result is `none`. -/
def instrumentCoverage (M : Module) (I : Instruction) (Line Col : Int) : Option Module :=
  let LineVal := ConstantInt.get Int32Type Line
  let ColVal := ConstantInt.get Int32Type Col
  let Args := [LineVal, ColVal]
  match M.getFunction COVERAGE_FUNCTION_NAME with
  | Option.none => Option.none
  | some CoverageFunction => some (CallInst.Create M CoverageFunction Args I)

/-- The function `instrumentBinOpOperands(M, BinOp, Line, Col)` for the binary operator
`BinOp` with opcode `op` and operands `Op1`, `Op2`. -/
def instrumentBinOpOperands (U : Utils) (M : Module) (BinOp : Instruction) (op : BinaryOps)
    (Op1 Op2 : Value) (Line Col : Int) : Option Module :=
  let symbol := U.getBinOpSymbol op
  let SymbolVal := ConstantInt.get Int8Type symbol.toNat
  let LineVal := ConstantInt.get Int32Type Line
  let ColVal := ConstantInt.get Int32Type Col
  let Args := [SymbolVal, LineVal, ColVal, Op1, Op2]
  match M.getFunction BINOP_OPERANDS_FUNCTION_NAME with
  | Option.none => Option.none
  | some BinOpFunc => some (CallInst.Create M BinOpFunc Args BinOp)

/-- Lines 24 to 31 of `DynamicAnalysisPass::run`: the two `getOrInsertFunction`
calls.  Returns the two results and the module. -/
def declareProbes (M : Module) : (FunctionCallee × FunctionCallee) × Module :=
  let r1 := M.getOrInsertFunction COVERAGE_FUNCTION_NAME VoidType [Int32Type, Int32Type]
  let r2 := r1.2.getOrInsertFunction BINOP_OPERANDS_FUNCTION_NAME VoidType
    [Int8Type, Int32Type, Int32Type, Int32Type, Int32Type]
  ((r1.1, r2.1), r2.2)

/-- Lines 43 to 56: the vector `toInstrument` of a function, the instructions
that have a debug location with the line and column read from it. -/
def toInstrument (F : Function) : List (Instruction × (Int × Int)) :=
  F.insts.foldl
    (fun acc Inst =>
      match Inst.debugLoc with
      | Option.none => acc
      | some DL => acc ++ [(Inst, (toInt DL.line, toInt DL.col))])
    []

/-- Lines 59 to 70: the loop over `toInstrument`.  The pass never changes an
existing instruction, so what `Inst` points to is the instruction recorded in
the snapshot. -/
def instrumentAll (U : Utils) : Module → List (Instruction × (Int × Int)) → Option Module
  | M, [] => some M
  | M, instInfo :: rest =>
    let Inst := instInfo.1
    let Line := instInfo.2.1
    let Col := instInfo.2.2
    match instrumentCoverage M Inst Line Col with
    | Option.none => Option.none
    | some M1 =>
      match Inst.kind with
      | InstKind.binaryOperator op Op1 Op2 =>
        match instrumentBinOpOperands U M1 Inst op Op1 Op2 Line Col with
        | Option.none => Option.none
        | some M2 => instrumentAll U M2 rest
      | _ => instrumentAll U M1 rest

/-- The state a pass works on: the module and the text written to `outs()`. -/
structure PassState where
  module : Module
  outs : String
  deriving DecidableEq, Repr

/-- What a pass leaves behind: the module, the text on `outs()` and the declared
result. -/
structure PassResult where
  module : Module
  outs : String
  preserved : PreservedAnalyses
  deriving DecidableEq, Repr

/-- The output `outs() << s`. -/
def PassState.print (st : PassState) (s : String) : PassState :=
  { st with outs := st.outs ++ s }

/-- Body of the loop `for (auto &F : M)` of `DynamicAnalysisPass::run` for the
function at position `i` of the function list. -/
def instrumentFunction (U : Utils) (st : PassState) (i : Nat) : Option PassState :=
  match st.module.functions[i]? with
  | Option.none => some st
  | some F =>
    if F.isDeclaration then some st
    else
      let st1 := st.print ("Instrumenting function " ++ F.name ++ "\n")
      let st2 := st1.print "Instrument Instructions\n"
      match instrumentAll U st2.module (toInstrument F) with
      | Option.none => Option.none
      | some M => some { st2 with module := M }

/-- The loop `for (auto &F : M)`: `k` functions remain, starting at position `i`. -/
def forEachFunction (U : Utils) : Nat → Nat → PassState → Option PassState
  | _, 0, st => some st
  | i, k + 1, st =>
    match instrumentFunction U st i with
    | Option.none => Option.none
    | some st1 => forEachFunction U (i + 1) k st1

/-- The pass `DynamicAnalysisPass::run(M, AM)`, started with the text `outs` already on
the output stream.  `none` stands for a crash of the pass. -/
def DynamicAnalysisPass.run (U : Utils) (M : Module) (outs : String) : Option PassResult :=
  let st0 : PassState := ⟨M, outs⟩
  let st1 := st0.print ("Running " ++ "Dynamic Analysis Pass" ++ " on module " ++ M.name ++ "\n")
  let M1 := (declareProbes st1.module).2
  match forEachFunction U 0 M1.functions.length { st1 with module := M1 } with
  | Option.none => Option.none
  | some st => some ⟨st.module, st.outs, PreservedAnalyses.none⟩

/-! ## `StaticAnalysisPass.cpp` -/

/-- Body of the loop over the instructions (lines 23 to 42). -/
def locateInstruction (U : Utils) (st : PassState) (Inst : Instruction) : PassState :=
  match Inst.debugLoc with
  | Option.none => st
  | some DL =>
    let Line := toInt DL.line
    let Col := toInt DL.col
    let st1 := st.print (toString Line ++ ", " ++ toString Col ++ "\n")
    match Inst.kind with
    | InstKind.binaryOperator op Op1 Op2 =>
      let symbol := U.getBinOpSymbol op
      let opName := U.getBinOpName symbol
      let op1 := U.variableOf Op1
      let op2 := U.variableOf Op2
      st1.print (opName ++ " on Line " ++ toString Line ++ ", Column " ++ toString Col
        ++ " with first operand " ++ op1 ++ " and second operand " ++ op2 ++ "\n")
    | _ => st1

/-- Body of the loop `for (auto &F : M)` of `StaticAnalysisPass::run`. -/
def locateFunction (U : Utils) (st : PassState) (i : Nat) : PassState :=
  match st.module.functions[i]? with
  | Option.none => st
  | some F =>
    if F.isDeclaration then st
    else
      let st1 := st.print ("Running " ++ "Static Analysis Pass" ++ " on function " ++ F.name ++ "\n")
      let st2 := st1.print "Locating Instructions\n"
      F.insts.foldl (locateInstruction U) st2

/-- The loop `for (auto &F : M)` of the static pass. -/
def locateFunctions (U : Utils) : Nat → Nat → PassState → PassState
  | _, 0, st => st
  | i, k + 1, st => locateFunctions U (i + 1) k (locateFunction U st i)

/-- The pass `StaticAnalysisPass::run(M, AM)`, started with the text `outs` already on the
output stream. -/
def StaticAnalysisPass.run (U : Utils) (M : Module) (outs : String) : PassResult :=
  let st0 : PassState := ⟨M, outs⟩
  let st1 := st0.print ("Running " ++ "Static Analysis Pass" ++ " on module " ++ M.name ++ "\n")
  let st := locateFunctions U 0 st1.module.functions.length st1
  ⟨st.module, st.outs, PreservedAnalyses.all⟩

/-! ## Scenario data -/

/-- Modelled from the spec: `Utils.h` is not among the embedded sources.  The
scenarios of the specification fix the symbol `+` for an addition, the name
Subtraction for a subtraction, and the name of a named operand as its textual
description; the remaining entries are only there to make the table total. -/
def scenarioUtils : Utils where
  getBinOpSymbol := fun op =>
    match op with
    | BinaryOps.Add => '+'
    | BinaryOps.Sub => '-'
    | _ => '?'
  getBinOpName := fun c =>
    if c = '+' then "Addition" else if c = '-' then "Subtraction" else "Unknown"
  variableOf := fun v =>
    match v with
    | Value.named n => n
    | Value.constantInt _ val => toString val
    | Value.unnamed slot => "%" ++ toString slot

/-- The instruction `a = x + y` at line 10, column 4. -/
def addInst : Instruction :=
  ⟨1, InstKind.binaryOperator BinaryOps.Add (Value.named "x") (Value.named "y"), some ⟨10, 4⟩⟩

/-- A return instruction without debug location. -/
def retInst : Instruction := ⟨2, InstKind.other "ret" [], Option.none⟩

/-- A module with one function whose body is `a = x + y` at (10, 4) and a return
without location. -/
def addModule : Module :=
  ⟨"m", [⟨"f", ⟨Ty.int 32, [Ty.int 32, Ty.int 32]⟩, [[addInst, retInst]]⟩]⟩


/-! ## Notions used to state the properties -/

/-- Distinct instruction objects of a module have distinct addresses. -/
def Module.UniqueAddrs (M : Module) : Prop := (M.allInsts.map (fun x => x.addr)).Nodup

instance (M : Module) : Decidable M.UniqueAddrs := by
  unfold Module.UniqueAddrs
  infer_instance

/-- The symbol table of a module binds every function name once. -/
def Module.UniqueNames (M : Module) : Prop := (M.functions.map (fun F => F.name)).Nodup

instance (M : Module) : Decidable M.UniqueNames := by
  unfold Module.UniqueNames
  infer_instance

/-- The Location Resolver: the source location `(Line, Col)` both passes read
from an instruction, absent when the instruction has no debug location. -/
def resolve (I : Instruction) : Option (Int × Int) :=
  I.debugLoc.map (fun DL => (toInt DL.line, toInt DL.col))

/-- Type of the function the name is bound to in the module. -/
def Module.calleeType (M : Module) (Name : String) : FunctionType :=
  match M.getFunction Name with
  | some F => F.type
  | Option.none => ⟨Ty.void, []⟩

/-- A call to the coverage probe with arguments `(l, c)`, at address `n`, the
probe having the type `fty`. -/
def coverageCall (fty : FunctionType) (n : Nat) (l c : Int) : Instruction :=
  ⟨n, InstKind.call COVERAGE_FUNCTION_NAME fty
    [ConstantInt.get Int32Type l, ConstantInt.get Int32Type c], Option.none⟩

/-- A call to the binary-operand probe with arguments
`(symbolOf(op), l, c, a, b)`, at address `n`, the probe having the type `fty`. -/
def binopCall (U : Utils) (fty : FunctionType) (n : Nat) (op : BinaryOps) (l c : Int)
    (a b : Value) : Instruction :=
  ⟨n, InstKind.call BINOP_OPERANDS_FUNCTION_NAME fty
    [ConstantInt.get Int8Type (U.getBinOpSymbol op).toNat, ConstantInt.get Int32Type l,
      ConstantInt.get Int32Type c, a, b], Option.none⟩

/-- The probe calls the specification places before the instruction `I`: none
when `I` has no source location, a coverage call when it has one, followed by a
binary-operand call when `I` is a binary operator.  `n1` and `n2` are the
addresses of the two calls. -/
def probeCalls (U : Utils) (covTy binTy : FunctionType) (n1 n2 : Nat) (I : Instruction) :
    List Instruction :=
  match resolve I with
  | Option.none => []
  | some (l, c) =>
    coverageCall covTy n1 l c ::
      (match I.kind with
       | InstKind.binaryOperator op a b => [binopCall U binTy n2 op l c a b]
       | _ => [])

/-- Whether the instruction is a `BinaryOperator`. -/
def Instruction.isBinaryOperator (I : Instruction) : Bool :=
  match I.kind with
  | InstKind.binaryOperator _ _ _ => true
  | _ => false

/-- Intermediate state of the instrumentation of `M1`: in `M` every instruction
`x` of `M1` is directly preceded by the calls `P x` inserted so far, the inserted
calls sit at addresses that were free in `M1`, and addresses are still unique. -/
structure Inserted (M1 : Module) (P : Instruction → List Instruction) (M : Module) : Prop where
  eq : M = M1.bindInsts (fun x => P x ++ [x])
  fresh : ∀ x p, p ∈ P x → M1.freshAddr ≤ p.addr
  unique : M.UniqueAddrs

/-- State of the instrumentation of `M1` once the located instructions whose
address satisfies `D` have been processed: those are preceded by their probe
calls, all other instructions by nothing. -/
structure Processed (U : Utils) (M1 : Module) (D : Nat → Prop)
    (P : Instruction → List Instruction) (M : Module) : Prop where
  ins : Inserted M1 P M
  done : ∀ x ∈ M1.allInsts, D x.addr → ∃ n1 n2, M1.freshAddr ≤ n1 ∧ M1.freshAddr ≤ n2 ∧
    P x = probeCalls U (M1.calleeType COVERAGE_FUNCTION_NAME)
      (M1.calleeType BINOP_OPERANDS_FUNCTION_NAME) n1 n2 x
  todo : ∀ x ∈ M1.allInsts, ¬ D x.addr → P x = []

/-- Addresses of the located instructions of the functions `Fs`. -/
def locatedIn (Fs : List Function) (a : Nat) : Prop :=
  ∃ x ∈ Fs.flatMap Function.insts, (resolve x).isSome ∧ x.addr = a

/-- Whether the instruction has a source location. -/
def Instruction.isLocated (I : Instruction) : Bool := (resolve I).isSome

/-- Whether the instruction is a call to the function of the given name. -/
def Instruction.isCallTo (I : Instruction) (Name : String) : Bool :=
  match I.kind with
  | InstKind.call callee _ _ => callee == Name
  | _ => false

/-- Type of the coverage probe once the probes are declared in `M`. -/
def coverageType (M : Module) : FunctionType :=
  (declareProbes M).2.calleeType COVERAGE_FUNCTION_NAME

/-- Type of the binary-operand probe once the probes are declared in `M`. -/
def binopType (M : Module) : FunctionType :=
  (declareProbes M).2.calleeType BINOP_OPERANDS_FUNCTION_NAME

/-- The instruction was inserted by a pass run on `M`: it sits at or above the
first free address of `M`, hence is none of the instruction objects of `M`. -/
def insertedInto (M : Module) (x : Instruction) : Bool := decide (M.freshAddr ≤ x.addr)

/-- Name of the called function when the instruction is a call. -/
def Instruction.calledName (I : Instruction) : Option String :=
  match I.kind with
  | InstKind.call callee _ _ => some callee
  | _ => Option.none

/-- A module whose only function contains only a return instruction without
debug location. -/
def retModule : Module := ⟨"m", [⟨"g", ⟨Ty.void, []⟩, [[retInst]]⟩]⟩

/-- The signature of the coverage probe. -/
def coverageSignature : FunctionType := ⟨VoidType, [Int32Type, Int32Type]⟩

/-- The signature of the binary-operand probe. -/
def binopSignature : FunctionType :=
  ⟨VoidType, [Int8Type, Int32Type, Int32Type, Int32Type, Int32Type]⟩

/-- Number of functions of the module that bear the given name. -/
def Module.countNamed (M : Module) (Name : String) : Nat :=
  (M.functions.map (fun F => F.name)).count Name

/-- A module in which the name of the coverage probe is already bound to a
function of another signature, `i32 ()`. -/
def collisionModule : Module := ⟨"m", [⟨"__coverage__", ⟨Ty.int 32, []⟩, []⟩]⟩

/-- A return instruction at line 3, column 1. -/
def locatedRetInst : Instruction := ⟨1, InstKind.other "ret" [], some ⟨3, 1⟩⟩

/-- A module in which the name of the binary-operand probe is already bound to a
function of another signature, `i32 ()`, and whose defined function has a
located instruction but no binary operator. -/
def collisionBinopModule : Module :=
  ⟨"m", [⟨"__binop_op__", ⟨Ty.int 32, []⟩, []⟩,
    ⟨"f", ⟨Ty.void, []⟩, [[locatedRetInst]]⟩]⟩

/-- Concatenation of a list of texts, in order. -/
def concatStrings (l : List String) : String := l.foldr (fun s t => s ++ t) ""

/-- The text the specification gives for one instruction: nothing when it has no
source location; the line `<l>, <c>` when it is located at `(l, c)`; and, when
it is moreover a binary operator, the line naming the operator, the location and
the two operands. -/
def reportOf (U : Utils) (I : Instruction) : String :=
  match resolve I with
  | Option.none => ""
  | some (l, c) =>
    (toString l ++ ", " ++ toString c ++ "\n") ++
      (match I.kind with
       | InstKind.binaryOperator op a b =>
         U.getBinOpName (U.getBinOpSymbol op) ++ " on Line " ++ toString l ++ ", Column "
           ++ toString c ++ " with first operand " ++ U.variableOf a
           ++ " and second operand " ++ U.variableOf b ++ "\n"
       | _ => "")

/-- The text for the body of a function: the texts of its instructions in
program order. -/
def bodyText (U : Utils) (F : Function) : String := concatStrings (F.insts.map (reportOf U))

/-- The text for a function: nothing for a declaration, otherwise the two header
lines followed by the text of the body. -/
def functionText (U : Utils) (F : Function) : String :=
  if F.isDeclaration then ""
  else ("Running Static Analysis Pass on function " ++ F.name ++ "\n")
    ++ ("Locating Instructions\n" ++ bodyText U F)

/-- The instruction `sub` at line 7, column 2 with the named operands `p`, `q`. -/
def subInst : Instruction :=
  ⟨1, InstKind.binaryOperator BinaryOps.Sub (Value.named "p") (Value.named "q"), some ⟨7, 2⟩⟩

/-- A module containing one `sub` instruction at line 7, column 2. -/
def subModule : Module := ⟨"m", [⟨"f", ⟨Ty.void, []⟩, [[subInst]]⟩]⟩

/-- The instruction directly before the instruction object `I` in a sequence of
instructions, if there is one. -/
def instBefore (I : Instruction) : List Instruction → Option Instruction
  | x :: y :: rest => if y.addr = I.addr then some x else instBefore I (y :: rest)
  | _ => Option.none
/-! ## Replacing instructions: algebra of `bindInsts` -/

theorem Function.insts_bindInsts (f : Instruction → List Instruction) (F : Function) :
    (F.bindInsts f).insts = F.insts.flatMap f := by
  unfold Function.bindInsts Function.insts
  induction F.blocks with
  | nil => rfl
  | cons b bs ih => simp [List.flatMap_append, ih]

theorem Module.allInsts_bindInsts (f : Instruction → List Instruction) (M : Module) :
    (M.bindInsts f).allInsts = M.allInsts.flatMap f := by
  unfold Module.bindInsts Module.allInsts
  induction M.functions with
  | nil => rfl
  | cons F Fs ih =>
    simp only [List.map_cons, List.flatMap_cons, List.flatMap_append, Function.insts_bindInsts]
    rw [ih]

theorem Function.bindInsts_ext {f g : Instruction → List Instruction} (F : Function)
    (h : ∀ x ∈ F.insts, f x = g x) : F.bindInsts f = F.bindInsts g := by
  unfold Function.bindInsts
  congr 1
  apply List.map_congr_left
  intro b hb
  apply List.flatMap_congr
  intro x hx
  exact h x (List.mem_flatten.2 ⟨b, hb, hx⟩)

theorem Module.bindInsts_congr {f g : Instruction → List Instruction} (M : Module)
    (h : ∀ x ∈ M.allInsts, f x = g x) : M.bindInsts f = M.bindInsts g := by
  unfold Module.bindInsts
  congr 1
  apply List.map_congr_left
  intro F hF
  apply Function.bindInsts_ext
  intro x hx
  exact h x (List.mem_flatMap.2 ⟨F, hF, hx⟩)

theorem Function.bindInsts_comp (f g : Instruction → List Instruction) (F : Function) :
    (F.bindInsts f).bindInsts g = F.bindInsts (fun x => (f x).flatMap g) := by
  unfold Function.bindInsts
  simp [List.flatMap_assoc]

theorem Module.bindInsts_bindInsts (f g : Instruction → List Instruction) (M : Module) :
    (M.bindInsts f).bindInsts g = M.bindInsts (fun x => (f x).flatMap g) := by
  unfold Module.bindInsts
  simp [Function.bindInsts_comp]

theorem Function.bindInsts_id (F : Function) : F.bindInsts (fun x => [x]) = F := by
  unfold Function.bindInsts
  simp

theorem Module.bindInsts_pure (M : Module) : M.bindInsts (fun x => [x]) = M := by
  unfold Module.bindInsts
  have : Function.bindInsts (fun x => [x]) = id := funext Function.bindInsts_id
  simp [this]

theorem Module.getFunction_bindInsts (f : Instruction → List Instruction) (M : Module)
    (Name : String) :
    (M.bindInsts f).getFunction Name = (M.getFunction Name).map (Function.bindInsts f) := by
  unfold Module.getFunction Module.bindInsts
  rw [List.find?_map]
  rfl

theorem Module.getFunction_name {M : Module} {Name : String} {F : Function}
    (h : M.getFunction Name = some F) : F.name = Name := by
  unfold Module.getFunction at h
  have := List.find?_some h
  simpa using this

/-! ## Fresh addresses -/

theorem le_foldr_max (l : List Nat) : ∀ a ∈ l, a ≤ l.foldr max 0 := by
  induction l with
  | nil => intro a ha; cases ha
  | cons b l ih =>
    intro a ha
    rcases List.mem_cons.1 ha with rfl | h
    · exact le_max_left _ _
    · exact le_trans (ih a h) (le_max_right _ _)

theorem foldr_max_le (l : List Nat) (k : Nat) (h : ∀ a ∈ l, a ≤ k) : l.foldr max 0 ≤ k := by
  induction l with
  | nil => exact Nat.zero_le _
  | cons b l ih =>
    exact max_le (h b (List.mem_cons_self _ _)) (ih (fun a ha => h a (List.mem_cons_of_mem _ ha)))

theorem Module.lt_freshAddr {M : Module} {x : Instruction} (h : x ∈ M.allInsts) :
    x.addr < M.freshAddr := by
  unfold Module.freshAddr
  exact Nat.lt_succ_of_le (le_foldr_max _ _ (List.mem_map_of_mem _ h))

theorem Module.freshAddr_mono {M M' : Module} (h : ∀ x ∈ M.allInsts, x ∈ M'.allInsts) :
    M.freshAddr ≤ M'.freshAddr := by
  unfold Module.freshAddr
  apply Nat.succ_le_succ
  apply foldr_max_le
  intro a ha
  obtain ⟨x, hx, rfl⟩ := List.mem_map.1 ha
  exact le_foldr_max _ _ (List.mem_map_of_mem _ (h x hx))

/-! ## One insertion -/

theorem flatMap_insert_of_ne (a : Nat) (new : Instruction) (l : List Instruction)
    (h : ∀ x ∈ l, x.addr ≠ a) :
    l.flatMap (fun x => if x.addr = a then [new, x] else [x]) = l := by
  induction l with
  | nil => rfl
  | cons y l ih =>
    have hy : y.addr ≠ a := h y (List.mem_cons_self _ _)
    simp only [List.flatMap_cons, if_neg hy]
    rw [ih (fun x hx => h x (List.mem_cons_of_mem _ hx))]
    rfl

theorem mem_flatMap_insert {a : Nat} {new y : Instruction} {l : List Instruction}
    (h : y ∈ l.flatMap (fun x => if x.addr = a then [new, x] else [x])) : y ∈ l ∨ y = new := by
  obtain ⟨x, hx, hy⟩ := List.mem_flatMap.1 h
  by_cases hxa : x.addr = a
  · rw [if_pos hxa] at hy
    simp only [List.mem_cons, List.mem_singleton, List.not_mem_nil, or_false] at hy
    rcases hy with rfl | rfl
    · exact Or.inr rfl
    · exact Or.inl hx
  · rw [if_neg hxa] at hy
    simp only [List.mem_singleton] at hy
    subst hy
    exact Or.inl hx

theorem nodup_flatMap_insert (a : Nat) (new : Instruction) (l : List Instruction)
    (hl : (l.map (fun x => x.addr)).Nodup) (hn : ∀ x ∈ l, x.addr ≠ new.addr) :
    ((l.flatMap (fun x => if x.addr = a then [new, x] else [x])).map (fun x => x.addr)).Nodup := by
  induction l with
  | nil => simp
  | cons y l ih =>
    have hl' := List.nodup_cons.1 hl
    have hy : ∀ x ∈ l, x.addr ≠ y.addr := by
      intro x hx hxy
      exact hl'.1 (List.mem_map.2 ⟨x, hx, hxy⟩)
    have hnl : ∀ x ∈ l, x.addr ≠ new.addr := fun x hx => hn x (List.mem_cons_of_mem _ hx)
    by_cases hya : y.addr = a
    · have hrest : ∀ x ∈ l, x.addr ≠ a := fun x hx => hya ▸ hy x hx
      simp only [List.flatMap_cons, if_pos hya]
      rw [flatMap_insert_of_ne a new l hrest]
      simp only [List.cons_append, List.nil_append, List.map_cons]
      refine List.nodup_cons.2 ⟨?_, hl⟩
      intro hmem
      rcases List.mem_cons.1 hmem with h | h
      · exact hn y (List.mem_cons_self _ _) h.symm
      · obtain ⟨x, hx, hxe⟩ := List.mem_map.1 h
        exact hnl x hx hxe
    · simp only [List.flatMap_cons, if_neg hya, List.cons_append, List.nil_append, List.map_cons]
      refine List.nodup_cons.2 ⟨?_, ih hl'.2 hnl⟩
      intro hmem
      obtain ⟨x, hx, hxe⟩ := List.mem_map.1 hmem
      rcases mem_flatMap_insert hx with h | h
      · exact hy x h hxe
      · subst h
        exact hn y (List.mem_cons_self _ _) hxe.symm

theorem Inserted.mem_allInsts {M1 M : Module} {P : Instruction → List Instruction}
    (h : Inserted M1 P M) {x : Instruction} (hx : x ∈ M1.allInsts) : x ∈ M.allInsts := by
  rw [h.eq, Module.allInsts_bindInsts]
  exact List.mem_flatMap.2 ⟨x, hx, by simp⟩

theorem Inserted.freshAddr_le {M1 M : Module} {P : Instruction → List Instruction}
    (h : Inserted M1 P M) : M1.freshAddr ≤ M.freshAddr :=
  Module.freshAddr_mono (fun _ hx => h.mem_allInsts hx)

theorem Inserted.refl {M1 : Module} (h : M1.UniqueAddrs) : Inserted M1 (fun _ => []) M1 where
  eq := by simp [Module.bindInsts_pure]
  fresh := by intro x p hp; cases hp
  unique := h

theorem Inserted.insert_step {M1 M : Module} {P : Instruction → List Instruction}
    (h : Inserted M1 P M) (I new : Instruction) (hI : I ∈ M1.allInsts)
    (hnew : new.addr = M.freshAddr) :
    Inserted M1 (fun x => if x.addr = I.addr then P x ++ [new] else P x)
      (M.insertBefore I new) where
  eq := by
    unfold Module.insertBefore
    rw [h.eq, Module.bindInsts_bindInsts]
    apply Module.bindInsts_congr
    intro x _
    have hP : (P x).flatMap (fun x => if x.addr = I.addr then [new, x] else [x]) = P x := by
      apply flatMap_insert_of_ne
      intro p hp hpa
      have h1 := h.fresh x p hp
      have h2 := Module.lt_freshAddr hI
      omega
    simp only [List.flatMap_append, hP, List.flatMap_cons, List.flatMap_nil, List.append_nil]
    by_cases hx : x.addr = I.addr
    · simp [hx]
    · simp [hx]
  fresh := by
    intro x p hp
    by_cases hx : x.addr = I.addr
    · rw [if_pos hx] at hp
      rcases List.mem_append.1 hp with hp | hp
      · exact h.fresh x p hp
      · simp only [List.mem_singleton] at hp
        subst hp
        rw [hnew]
        exact h.freshAddr_le
    · rw [if_neg hx] at hp
      exact h.fresh x p hp
  unique := by
    unfold Module.UniqueAddrs Module.insertBefore
    rw [Module.allInsts_bindInsts]
    apply nodup_flatMap_insert _ _ _ h.unique
    intro x hx hxe
    have := Module.lt_freshAddr hx
    omega

/-! ## One instrumented instruction -/

theorem Module.eq_of_addr_eq {M : Module} (h : M.UniqueAddrs) {x y : Instruction}
    (hx : x ∈ M.allInsts) (hy : y ∈ M.allInsts) (hxy : x.addr = y.addr) : x = y :=
  List.inj_on_of_nodup_map h hx hy hxy

theorem instrumentCoverage_eq {M1 M : Module} {f : Instruction → List Instruction}
    (hM : M = M1.bindInsts f) {cF : Function}
    (hc : M1.getFunction COVERAGE_FUNCTION_NAME = some cF) (I : Instruction) (l c : Int) :
    instrumentCoverage M I l c
      = some (M.insertBefore I
          (coverageCall (M1.calleeType COVERAGE_FUNCTION_NAME) M.freshAddr l c)) := by
  have hg : M.getFunction COVERAGE_FUNCTION_NAME = some (cF.bindInsts f) := by
    rw [hM, Module.getFunction_bindInsts, hc]; rfl
  have hn := Module.getFunction_name hc
  unfold instrumentCoverage
  simp only [hg, CallInst.Create, coverageCall, Module.calleeType, hc]
  simp [Function.bindInsts, hn]

theorem instrumentBinOpOperands_eq (U : Utils) {M1 M : Module}
    {f : Instruction → List Instruction}
    (hM : M = M1.bindInsts f) {bF : Function}
    (hb : M1.getFunction BINOP_OPERANDS_FUNCTION_NAME = some bF) (I : Instruction)
    (op : BinaryOps) (a b : Value) (l c : Int) :
    instrumentBinOpOperands U M I op a b l c
      = some (M.insertBefore I
          (binopCall U (M1.calleeType BINOP_OPERANDS_FUNCTION_NAME) M.freshAddr op l c a b)) := by
  have hg : M.getFunction BINOP_OPERANDS_FUNCTION_NAME = some (bF.bindInsts f) := by
    rw [hM, Module.getFunction_bindInsts, hb]; rfl
  have hn := Module.getFunction_name hb
  unfold instrumentBinOpOperands
  simp only [hg, CallInst.Create, binopCall, Module.calleeType, hb]
  simp [Function.bindInsts, hn]

theorem Processed.congr {U : Utils} {M1 M : Module} {D D' : Nat → Prop}
    {P : Instruction → List Instruction} (h : Processed U M1 D P M)
    (hD : ∀ a, D a ↔ D' a) : Processed U M1 D' P M := by
  have : D = D' := funext (fun a => propext (hD a))
  rw [← this]
  exact h

theorem Processed.step {U : Utils} {M1 M : Module} {D : Nat → Prop}
    {P : Instruction → List Instruction} (h : Processed U M1 D P M) (hU : M1.UniqueAddrs)
    {cF bF : Function}
    (hc : M1.getFunction COVERAGE_FUNCTION_NAME = some cF)
    (hb : M1.getFunction BINOP_OPERANDS_FUNCTION_NAME = some bF)
    {I : Instruction} {l c : Int} (hI : I ∈ M1.allInsts) (hloc : resolve I = some (l, c))
    (hD : ¬ D I.addr) :
    ∃ M' P', Processed U M1 (fun a => D a ∨ a = I.addr) P' M' ∧
      ∀ rest, instrumentAll U M ((I, (l, c)) :: rest) = instrumentAll U M' rest := by
  have hcov := instrumentCoverage_eq h.ins.eq hc I l c
  have hInsC := h.ins.insert_step I
    (coverageCall (M1.calleeType COVERAGE_FUNCTION_NAME) M.freshAddr l c) hI rfl
  have hPI : P I = [] := h.todo I hI hD
  cases hk : I.kind with
  | binaryOperator op a b =>
    have hbin := instrumentBinOpOperands_eq U hInsC.eq hb I op a b l c
    have hInsB := hInsC.insert_step I
      (binopCall U (M1.calleeType BINOP_OPERANDS_FUNCTION_NAME)
        (M.insertBefore I
          (coverageCall (M1.calleeType COVERAGE_FUNCTION_NAME) M.freshAddr l c)).freshAddr
        op l c a b) hI rfl
    refine ⟨_, _, ⟨hInsB, ?_, ?_⟩, ?_⟩
    · intro x hx hDx
      by_cases hxa : x.addr = I.addr
      · have hxI : x = I := Module.eq_of_addr_eq hU hx hI hxa
        subst hxI
        refine ⟨M.freshAddr, _, h.ins.freshAddr_le, hInsC.freshAddr_le, ?_⟩
        simp [hPI, probeCalls, hloc, hk]
      · rcases hDx with hDx | hDx
        · obtain ⟨n1, n2, h1, h2, hP⟩ := h.done x hx hDx
          exact ⟨n1, n2, h1, h2, by simp [hxa, hP]⟩
        · exact absurd hDx hxa
    · intro x hx hDx
      have hxa : x.addr ≠ I.addr := fun e => hDx (Or.inr e)
      have hxD : ¬ D x.addr := fun e => hDx (Or.inl e)
      simp [hxa, h.todo x hx hxD]
    · intro rest
      simp only [instrumentAll, hcov, hk, hbin]
  | call callee fty args =>
    refine ⟨_, _, ⟨hInsC, ?_, ?_⟩, ?_⟩
    · intro x hx hDx
      by_cases hxa : x.addr = I.addr
      · have hxI : x = I := Module.eq_of_addr_eq hU hx hI hxa
        subst hxI
        refine ⟨M.freshAddr, M.freshAddr, h.ins.freshAddr_le, h.ins.freshAddr_le, ?_⟩
        simp [hPI, probeCalls, hloc, hk]
      · rcases hDx with hDx | hDx
        · obtain ⟨n1, n2, h1, h2, hP⟩ := h.done x hx hDx
          exact ⟨n1, n2, h1, h2, by simp [hxa, hP]⟩
        · exact absurd hDx hxa
    · intro x hx hDx
      have hxa : x.addr ≠ I.addr := fun e => hDx (Or.inr e)
      have hxD : ¬ D x.addr := fun e => hDx (Or.inl e)
      simp [hxa, h.todo x hx hxD]
    · intro rest
      simp only [instrumentAll, hcov, hk]
  | other opcode operands =>
    refine ⟨_, _, ⟨hInsC, ?_, ?_⟩, ?_⟩
    · intro x hx hDx
      by_cases hxa : x.addr = I.addr
      · have hxI : x = I := Module.eq_of_addr_eq hU hx hI hxa
        subst hxI
        refine ⟨M.freshAddr, M.freshAddr, h.ins.freshAddr_le, h.ins.freshAddr_le, ?_⟩
        simp [hPI, probeCalls, hloc, hk]
      · rcases hDx with hDx | hDx
        · obtain ⟨n1, n2, h1, h2, hP⟩ := h.done x hx hDx
          exact ⟨n1, n2, h1, h2, by simp [hxa, hP]⟩
        · exact absurd hDx hxa
    · intro x hx hDx
      have hxa : x.addr ≠ I.addr := fun e => hDx (Or.inr e)
      have hxD : ¬ D x.addr := fun e => hDx (Or.inl e)
      simp [hxa, h.todo x hx hxD]
    · intro rest
      simp only [instrumentAll, hcov, hk]

/-! ## The snapshot `toInstrument` and the loop over it -/

theorem toInstrument_eq (F : Function) :
    toInstrument F = F.insts.filterMap (fun I => (resolve I).map (fun lc => (I, lc))) := by
  unfold toInstrument
  suffices H : ∀ (l : List Instruction) (acc : List (Instruction × (Int × Int))),
      l.foldl (fun acc Inst =>
        match Inst.debugLoc with
        | Option.none => acc
        | some DL => acc ++ [(Inst, (toInt DL.line, toInt DL.col))]) acc
      = acc ++ l.filterMap (fun I => (resolve I).map (fun lc => (I, lc))) by
    simpa using H F.insts []
  intro l
  induction l with
  | nil => intro acc; simp
  | cons x l ih =>
    intro acc
    rw [List.foldl_cons, ih]
    cases hx : x.debugLoc with
    | none => simp [List.filterMap_cons, resolve, hx]
    | some DL => simp [List.filterMap_cons, resolve, hx]

theorem mem_toInstrument {F : Function} {t : Instruction × (Int × Int)} :
    t ∈ toInstrument F ↔ t.1 ∈ F.insts ∧ resolve t.1 = some t.2 := by
  rw [toInstrument_eq, List.mem_filterMap]
  constructor
  · rintro ⟨x, hx, hxt⟩
    cases hr : resolve x with
    | none => simp [hr] at hxt
    | some lc =>
      simp only [hr, Option.map_some', Option.some.injEq] at hxt
      subst hxt
      exact ⟨hx, hr⟩
  · rintro ⟨h1, h2⟩
    exact ⟨t.1, h1, by simp [h2]⟩

theorem toInstrument_map_fst (F : Function) :
    (toInstrument F).map (fun t => t.1) = F.insts.filter (fun I => (resolve I).isSome) := by
  rw [toInstrument_eq]
  induction F.insts with
  | nil => rfl
  | cons x l ih =>
    cases hr : resolve x with
    | none => simp [List.filterMap_cons, List.filter_cons, hr, ih]
    | some lc => simp [List.filterMap_cons, List.filter_cons, hr, ih]

theorem instrumentAll_spec {U : Utils} {M1 : Module} (hU : M1.UniqueAddrs) {cF bF : Function}
    (hc : M1.getFunction COVERAGE_FUNCTION_NAME = some cF)
    (hb : M1.getFunction BINOP_OPERANDS_FUNCTION_NAME = some bF) :
    ∀ (ts : List (Instruction × (Int × Int))) (D : Nat → Prop)
      (P : Instruction → List Instruction) (M : Module),
      Processed U M1 D P M →
      (∀ t ∈ ts, t.1 ∈ M1.allInsts ∧ resolve t.1 = some t.2) →
      (ts.map (fun t => t.1.addr)).Nodup →
      (∀ t ∈ ts, ¬ D t.1.addr) →
      ∃ M' P', instrumentAll U M ts = some M' ∧
        Processed U M1 (fun a => D a ∨ ∃ t ∈ ts, t.1.addr = a) P' M' := by
  intro ts
  induction ts with
  | nil =>
    intro D P M h _ _ _
    exact ⟨M, P, rfl, h.congr (by simp)⟩
  | cons t ts ih =>
    intro D P M h hts hnd hD
    obtain ⟨I, l, c⟩ := t
    have ht := hts (I, (l, c)) (List.mem_cons_self _ _)
    obtain ⟨M', P', hP', hstep⟩ :=
      h.step hU hc hb ht.1 ht.2 (hD (I, (l, c)) (List.mem_cons_self _ _))
    have hnd' := List.nodup_cons.1 hnd
    obtain ⟨M'', P'', hrun, hP''⟩ := ih _ P' M' hP'
      (fun t ht => hts t (List.mem_cons_of_mem _ ht)) hnd'.2
      (by
        intro t ht hDt
        rcases hDt with hDt | hDt
        · exact hD t (List.mem_cons_of_mem _ ht) hDt
        · exact hnd'.1 (List.mem_map.2 ⟨t, ht, hDt⟩))
    refine ⟨M'', P'', ?_, hP''.congr ?_⟩
    · rw [hstep]; exact hrun
    · intro a
      simp only [List.mem_cons, exists_eq_or_imp]
      constructor
      · rintro ((h1 | h1) | h1)
        · exact Or.inl h1
        · exact Or.inr (Or.inl h1.symm)
        · exact Or.inr (Or.inr h1)
      · rintro (h1 | h1 | h1)
        · exact Or.inl (Or.inl h1)
        · exact Or.inl (Or.inr h1.symm)
        · exact Or.inr h1

/-! ## The loop over the functions -/

theorem Module.allInsts_of_functions_eq {M : Module} {pre rest : List Function} {F : Function}
    (hfs : M.functions = pre ++ F :: rest) :
    M.allInsts = pre.flatMap Function.insts ++ (F.insts ++ rest.flatMap Function.insts) := by
  unfold Module.allInsts
  rw [hfs]
  simp [List.flatMap_append, List.flatMap_cons]

theorem PassState.print_module (st : PassState) (s : String) : (st.print s).module = st.module :=
  rfl

theorem instrumentFunction_spec {U : Utils} {M1 : Module} (hU : M1.UniqueAddrs)
    {cF bF : Function}
    (hc : M1.getFunction COVERAGE_FUNCTION_NAME = some cF)
    (hb : M1.getFunction BINOP_OPERANDS_FUNCTION_NAME = some bF)
    {pre rest : List Function} {F : Function} (hfs : M1.functions = pre ++ F :: rest)
    {P : Instruction → List Instruction} {st : PassState}
    (h : Processed U M1 (locatedIn pre) P st.module) :
    ∃ st' P', instrumentFunction U st pre.length = some st' ∧
      Processed U M1 (locatedIn (pre ++ [F])) P' st'.module := by
  have hall := Module.allInsts_of_functions_eq hfs
  have hget1 : M1.functions[pre.length]? = some F := by
    rw [hfs, List.getElem?_append_right (Nat.le_refl _)]
    simp
  have hget : st.module.functions[pre.length]? = some (F.bindInsts (fun x => P x ++ [x])) := by
    rw [h.ins.eq]; simp [Module.bindInsts, hget1]
  have hFmem : ∀ x ∈ F.insts, x ∈ M1.allInsts := by
    intro x hx
    rw [hall]
    exact List.mem_append_right _ (List.mem_append_left _ hx)
  have hnd : ((pre.flatMap Function.insts).map (fun x => x.addr)
      ++ ((F.insts).map (fun x => x.addr)
        ++ (rest.flatMap Function.insts).map (fun x => x.addr))).Nodup := by
    have := hU
    unfold Module.UniqueAddrs at this
    rw [hall] at this
    simpa [List.map_append] using this
  have hnot : ∀ x ∈ F.insts, ¬ locatedIn pre x.addr := by
    rintro x hx ⟨y, hy, _, hyx⟩
    have hdis := (List.nodup_append.1 hnd).2.2
    exact hdis (List.mem_map.2 ⟨y, hy, hyx⟩)
      (List.mem_append_left _ (List.mem_map.2 ⟨x, hx, rfl⟩))
  have hFeq : F.bindInsts (fun x => P x ++ [x]) = F := by
    rw [Function.bindInsts_ext F (g := fun x => [x])]
    · exact Function.bindInsts_id F
    · intro x hx
      simp [h.todo x (hFmem x hx) (hnot x hx)]
  unfold instrumentFunction
  rw [hget, hFeq]
  by_cases hdecl : F.isDeclaration = true
  · refine ⟨st, P, by simp [hdecl], h.congr ?_⟩
    have hb : F.blocks = [] := by
      simpa [Function.isDeclaration, List.isEmpty_iff] using hdecl
    have hempty : F.insts = [] := by simp [Function.insts, hb]
    intro a
    simp [locatedIn, List.flatMap_append, hempty]
  · have hndF : ((toInstrument F).map (fun t => t.1.addr)).Nodup := by
      have h1 : (toInstrument F).map (fun t => t.1.addr)
          = ((toInstrument F).map (fun t => t.1)).map (fun x => x.addr) := by
        simp [List.map_map]
      rw [h1, toInstrument_map_fst]
      have h2 := (List.nodup_append.1 (List.nodup_append.1 hnd).2.1).1
      exact h2.sublist (List.Sublist.map _ (List.filter_sublist _))
    obtain ⟨M', P', hrun, hP'⟩ := instrumentAll_spec hU hc hb (toInstrument F)
      (locatedIn pre) P st.module h
      (fun t ht => ⟨hFmem _ (mem_toInstrument.1 ht).1, (mem_toInstrument.1 ht).2⟩)
      hndF
      (fun t ht => hnot _ (mem_toInstrument.1 ht).1)
    refine ⟨_, P', by simp only [hdecl, PassState.print_module, hrun]; rfl, ?_⟩
    refine hP'.congr ?_
    intro a
    simp only [locatedIn, List.flatMap_append, List.flatMap_cons, List.flatMap_nil,
      List.append_nil, List.mem_append]
    constructor
    · rintro (⟨x, hx, hr, hxa⟩ | ⟨t, ht, hta⟩)
      · exact ⟨x, Or.inl hx, hr, hxa⟩
      · have := mem_toInstrument.1 ht
        exact ⟨t.1, Or.inr this.1, by simp [this.2], hta⟩
    · rintro ⟨x, hx | hx, hr, hxa⟩
      · exact Or.inl ⟨x, hx, hr, hxa⟩
      · obtain ⟨lc, hlc⟩ := Option.isSome_iff_exists.1 hr
        exact Or.inr ⟨(x, lc), mem_toInstrument.2 ⟨hx, hlc⟩, hxa⟩

theorem forEachFunction_spec {U : Utils} {M1 : Module} (hU : M1.UniqueAddrs)
    {cF bF : Function}
    (hc : M1.getFunction COVERAGE_FUNCTION_NAME = some cF)
    (hb : M1.getFunction BINOP_OPERANDS_FUNCTION_NAME = some bF) :
    ∀ (rest pre : List Function) (P : Instruction → List Instruction) (st : PassState),
      M1.functions = pre ++ rest →
      Processed U M1 (locatedIn pre) P st.module →
      ∃ st' P', forEachFunction U pre.length rest.length st = some st' ∧
        Processed U M1 (locatedIn M1.functions) P' st'.module := by
  intro rest
  induction rest with
  | nil =>
    intro pre P st hfs h
    refine ⟨st, P, rfl, ?_⟩
    rw [hfs, List.append_nil]
    exact h
  | cons F rest ih =>
    intro pre P st hfs h
    obtain ⟨st1, P1, hrun1, hP1⟩ := instrumentFunction_spec hU hc hb hfs h
    obtain ⟨st2, P2, hrun2, hP2⟩ := ih (pre ++ [F]) P1 st1 (by simp [hfs]) hP1
    refine ⟨st2, P2, ?_, hP2⟩
    simp only [List.length_cons, forEachFunction, hrun1]
    simpa using hrun2

/-! ## Declaring the probes -/

theorem Module.getOrInsertFunction_functions (M : Module) (Name : String) (Ret : Ty)
    (Params : List Ty) :
    (M.getOrInsertFunction Name Ret Params).2.functions
      = M.functions ++
        (if (M.getFunction Name).isSome then [] else [⟨Name, ⟨Ret, Params⟩, []⟩]) := by
  unfold Module.getOrInsertFunction
  cases h : M.getFunction Name with
  | none => simp
  | some F => simp

theorem Module.getOrInsertFunction_name (M : Module) (Name : String) (Ret : Ty)
    (Params : List Ty) : (M.getOrInsertFunction Name Ret Params).2.name = M.name := by
  unfold Module.getOrInsertFunction
  cases h : M.getFunction Name with
  | none => rfl
  | some F => rfl

theorem Module.getFunction_append_of_isSome {M M' : Module} {extra : List Function}
    (h : M'.functions = M.functions ++ extra) {Name : String}
    (hs : (M.getFunction Name).isSome) : M'.getFunction Name = M.getFunction Name := by
  unfold Module.getFunction at hs ⊢
  rw [h, List.find?_append]
  obtain ⟨F, hF⟩ := Option.isSome_iff_exists.1 hs
  rw [hF]
  rfl

theorem Module.getOrInsertFunction_isSome (M : Module) (Name : String) (Ret : Ty)
    (Params : List Ty) :
    ((M.getOrInsertFunction Name Ret Params).2.getFunction Name).isSome := by
  cases h : M.getFunction Name with
  | some F =>
    have : (M.getOrInsertFunction Name Ret Params).2 = M := by
      unfold Module.getOrInsertFunction
      rw [h]
    rw [this, h]
    rfl
  | none =>
    have hf := Module.getOrInsertFunction_functions M Name Ret Params
    rw [h] at hf
    have h' := h
    unfold Module.getFunction at h' ⊢
    rw [hf, List.find?_append, h']
    simp

theorem declareProbes_functions (M : Module) :
    ∃ extra : List Function, (declareProbes M).2.functions = M.functions ++ extra ∧
      ∀ F ∈ extra, F.blocks = [] := by
  unfold declareProbes
  simp only
  rw [Module.getOrInsertFunction_functions, Module.getOrInsertFunction_functions,
    List.append_assoc]
  refine ⟨_, rfl, ?_⟩
  intro F hF
  rcases List.mem_append.1 hF with h | h
  · split at h
    · cases h
    · simp only [List.mem_singleton] at h
      rw [h]
  · split at h
    · cases h
    · simp only [List.mem_singleton] at h
      rw [h]

theorem declareProbes_name (M : Module) : (declareProbes M).2.name = M.name := by
  unfold declareProbes
  simp only [Module.getOrInsertFunction_name]

theorem declareProbes_allInsts (M : Module) : (declareProbes M).2.allInsts = M.allInsts := by
  obtain ⟨extra, he, hb⟩ := declareProbes_functions M
  unfold Module.allInsts
  rw [he, List.flatMap_append]
  have : extra.flatMap Function.insts = [] := by
    rw [List.flatMap_eq_nil_iff]
    intro F hF
    simp [Function.insts, hb F hF]
  rw [this, List.append_nil]

theorem declareProbes_freshAddr (M : Module) : (declareProbes M).2.freshAddr = M.freshAddr := by
  unfold Module.freshAddr
  rw [declareProbes_allInsts]

theorem declareProbes_uniqueAddrs {M : Module} (h : M.UniqueAddrs) :
    (declareProbes M).2.UniqueAddrs := by
  unfold Module.UniqueAddrs
  rw [declareProbes_allInsts]
  exact h

theorem declareProbes_getElem? {M : Module} {i : Nat} {F : Function}
    (h : M.functions[i]? = some F) : (declareProbes M).2.functions[i]? = some F := by
  obtain ⟨extra, he, _⟩ := declareProbes_functions M
  have hi : i < M.functions.length := by
    by_contra hlt
    rw [List.getElem?_eq_none (Nat.le_of_not_lt hlt)] at h
    cases h
  rw [he, List.getElem?_append_left hi]
  exact h

theorem declareProbes_coverage_isSome (M : Module) :
    ((declareProbes M).2.getFunction COVERAGE_FUNCTION_NAME).isSome := by
  have h1 := Module.getOrInsertFunction_isSome M COVERAGE_FUNCTION_NAME VoidType
    [Int32Type, Int32Type]
  unfold declareProbes
  simp only
  rw [Module.getFunction_append_of_isSome (Module.getOrInsertFunction_functions _ _ _ _) h1]
  exact h1

theorem declareProbes_binop_isSome (M : Module) :
    ((declareProbes M).2.getFunction BINOP_OPERANDS_FUNCTION_NAME).isSome := by
  unfold declareProbes
  exact Module.getOrInsertFunction_isSome _ _ _ _

/-! ## The whole pass -/

theorem DynamicAnalysisPass.run_spec (U : Utils) (M : Module) (outs : String)
    (hU : M.UniqueAddrs) :
    ∃ (P : Instruction → List Instruction) (outs' : String),
      DynamicAnalysisPass.run U M outs
        = some ⟨(declareProbes M).2.bindInsts (fun x => P x ++ [x]), outs',
            PreservedAnalyses.none⟩ ∧
      ((declareProbes M).2.bindInsts (fun x => P x ++ [x])).UniqueAddrs ∧
      ∀ x ∈ M.allInsts, ∃ n1 n2, M.freshAddr ≤ n1 ∧ M.freshAddr ≤ n2 ∧
        P x = probeCalls U ((declareProbes M).2.calleeType COVERAGE_FUNCTION_NAME)
          ((declareProbes M).2.calleeType BINOP_OPERANDS_FUNCTION_NAME) n1 n2 x := by
  have hU1 := declareProbes_uniqueAddrs hU
  obtain ⟨cF, hc⟩ := Option.isSome_iff_exists.1 (declareProbes_coverage_isSome M)
  obtain ⟨bF, hb⟩ := Option.isSome_iff_exists.1 (declareProbes_binop_isSome M)
  have h0 : Processed U (declareProbes M).2 (locatedIn []) (fun _ => [])
      (declareProbes M).2 := by
    refine ⟨Inserted.refl hU1, ?_, ?_⟩
    · rintro x _ ⟨y, hy, _⟩
      simp at hy
    · intro x _ _
      rfl
  obtain ⟨st', P', hrun, hP'⟩ := forEachFunction_spec hU1 hc hb (declareProbes M).2.functions []
    (fun _ => [])
    ⟨(declareProbes M).2,
      outs ++ ("Running " ++ "Dynamic Analysis Pass" ++ " on module " ++ M.name ++ "\n")⟩
    (by simp) h0
  refine ⟨P', st'.outs, ?_, ?_, ?_⟩
  · unfold DynamicAnalysisPass.run
    simp only [PassState.print, List.length_nil] at hrun ⊢
    rw [hrun, ← hP'.ins.eq]
  · rw [← hP'.ins.eq]
    exact hP'.ins.unique
  · intro x hx
    rw [← declareProbes_allInsts] at hx
    rw [← declareProbes_freshAddr]
    by_cases hD : locatedIn (declareProbes M).2.functions x.addr
    · exact hP'.done x hx hD
    · refine ⟨_, _, Nat.le_refl _, Nat.le_refl _, ?_⟩
      rw [hP'.todo x hx hD]
      have hr : resolve x = Option.none := by
        cases hr : resolve x with
        | none => rfl
        | some lc => exact absurd ⟨x, hx, by simp [hr], rfl⟩ hD
      simp [probeCalls, hr]

/-! ## What the pass does to one function -/

theorem DynamicAnalysisPass.run_function (U : Utils) (M : Module) (outs : String)
    (hU : M.UniqueAddrs) {i : Nat} {F : Function} (hi : M.functions[i]? = some F) :
    ∃ (r : PassResult) (P : Instruction → List Instruction),
      DynamicAnalysisPass.run U M outs = some r ∧
      r.preserved = PreservedAnalyses.none ∧
      r.module.UniqueAddrs ∧
      r.module.functions[i]? = some (F.bindInsts (fun x => P x ++ [x])) ∧
      ∀ x ∈ F.insts, ∃ n1 n2, M.freshAddr ≤ n1 ∧ M.freshAddr ≤ n2 ∧
        P x = probeCalls U (coverageType M) (binopType M) n1 n2 x := by
  obtain ⟨P, outs', hrun, hun, hP⟩ := DynamicAnalysisPass.run_spec U M outs hU
  refine ⟨_, P, hrun, rfl, hun, ?_, ?_⟩
  · simp [Module.bindInsts, declareProbes_getElem? hi]
  · intro x hx
    apply hP
    exact List.mem_flatMap.2 ⟨F, List.getElem?_mem hi, hx⟩

theorem Module.lt_freshAddr_of_getElem? {M : Module} {i : Nat} {F : Function}
    (hi : M.functions[i]? = some F) {x : Instruction} (hx : x ∈ F.insts) :
    x.addr < M.freshAddr :=
  Module.lt_freshAddr (List.mem_flatMap.2 ⟨F, List.getElem?_mem hi, hx⟩)

theorem Module.nodup_insts_of_getElem? {M : Module} (hU : M.UniqueAddrs) {i : Nat}
    {F : Function} (hi : M.functions[i]? = some F) : (F.insts.map (fun x => x.addr)).Nodup := by
  obtain ⟨pre, rest, hfs⟩ := List.append_of_mem (List.getElem?_mem hi)
  have hall := Module.allInsts_of_functions_eq hfs
  unfold Module.UniqueAddrs at hU
  rw [hall, List.map_append, List.map_append] at hU
  exact (List.nodup_append.1 (List.nodup_append.1 hU).2.1).1

/-! ## Lists of the form `l.flatMap (fun x => P x ++ [x])` -/

theorem flatMap_split {α β : Type} (f : α → List β) {l : List α} {a : α} {o1 o2 : List α}
    (h : l = o1 ++ a :: o2) : l.flatMap f = o1.flatMap f ++ (f a ++ o2.flatMap f) := by
  rw [h, List.flatMap_append, List.flatMap_cons]

theorem mem_flatMap_snoc {P : Instruction → List Instruction} {l : List Instruction}
    {y : Instruction} (h : y ∈ l.flatMap (fun x => P x ++ [x])) :
    y ∈ l ∨ ∃ x ∈ l, y ∈ P x := by
  obtain ⟨x, hx, hy⟩ := List.mem_flatMap.1 h
  rcases List.mem_append.1 hy with hy | hy
  · exact Or.inr ⟨x, hx, hy⟩
  · simp only [List.mem_singleton] at hy
    subst hy
    exact Or.inl hx

theorem filter_flatMap_snoc (keep : Instruction → Bool) (P : Instruction → List Instruction)
    (l : List Instruction) (h1 : ∀ x ∈ l, keep x = true)
    (h2 : ∀ x ∈ l, ∀ p ∈ P x, keep p = false) :
    (l.flatMap (fun x => P x ++ [x])).filter keep = l := by
  induction l with
  | nil => rfl
  | cons x l ih =>
    have hx := h1 x (List.mem_cons_self _ _)
    have hP : (P x).filter keep = [] := by
      rw [List.filter_eq_nil_iff]
      intro p hp
      simp [h2 x (List.mem_cons_self _ _) p hp]
    rw [List.flatMap_cons, List.filter_append, List.filter_append, hP,
      ih (fun y hy => h1 y (List.mem_cons_of_mem _ hy))
        (fun y hy => h2 y (List.mem_cons_of_mem _ hy))]
    simp [List.filter_cons, hx]

theorem filter_not_flatMap_snoc (keep : Instruction → Bool) (P : Instruction → List Instruction)
    (l : List Instruction) (h1 : ∀ x ∈ l, keep x = false)
    (h2 : ∀ x ∈ l, ∀ p ∈ P x, keep p = true) :
    (l.flatMap (fun x => P x ++ [x])).filter keep = l.flatMap P := by
  induction l with
  | nil => rfl
  | cons x l ih =>
    have hx := h1 x (List.mem_cons_self _ _)
    have hP : (P x).filter keep = P x := by
      rw [List.filter_eq_self]
      intro p hp
      exact h2 x (List.mem_cons_self _ _) p hp
    rw [List.flatMap_cons, List.filter_append, List.filter_append, hP,
      ih (fun y hy => h1 y (List.mem_cons_of_mem _ hy))
        (fun y hy => h2 y (List.mem_cons_of_mem _ hy))]
    simp [List.filter_cons, hx, List.flatMap_cons]

theorem mem_probeCalls {U : Utils} {covTy binTy : FunctionType} {n1 n2 : Nat}
    {I p : Instruction} (h : p ∈ probeCalls U covTy binTy n1 n2 I) :
    p.debugLoc = Option.none ∧
      ((p.addr = n1 ∧ p.isCallTo COVERAGE_FUNCTION_NAME = true) ∨
        (p.addr = n2 ∧ p.isCallTo BINOP_OPERANDS_FUNCTION_NAME = true)) := by
  unfold probeCalls at h
  cases hr : resolve I with
  | none => simp [hr] at h
  | some lc =>
    obtain ⟨l, c⟩ := lc
    simp only [hr, List.mem_cons] at h
    rcases h with h | h
    · subst h
      exact ⟨rfl, Or.inl ⟨rfl, by simp [Instruction.isCallTo, coverageCall]⟩⟩
    · cases hk : I.kind with
      | binaryOperator op a b =>
        simp only [hk, List.mem_singleton] at h
        subst h
        exact ⟨rfl, Or.inr ⟨rfl, by simp [Instruction.isCallTo, binopCall]⟩⟩
      | call callee fty args => simp [hk] at h
      | other opcode operands => simp [hk] at h

theorem filter_flatMap_snoc_of_drop (keep : Instruction → Bool)
    (P : Instruction → List Instruction) (l : List Instruction)
    (h2 : ∀ x ∈ l, ∀ p ∈ P x, keep p = false) :
    (l.flatMap (fun x => P x ++ [x])).filter keep = l.filter keep := by
  induction l with
  | nil => rfl
  | cons x l ih =>
    have hP : (P x).filter keep = [] := by
      rw [List.filter_eq_nil_iff]
      intro p hp
      simp [h2 x (List.mem_cons_self _ _) p hp]
    rw [List.flatMap_cons, List.filter_append, List.filter_append, hP,
      ih (fun y hy => h2 y (List.mem_cons_of_mem _ hy))]
    by_cases hx : keep x = true
    · simp [List.filter_cons, hx]
    · simp [List.filter_cons, hx]

theorem length_flatMap_snoc (P : Instruction → List Instruction) (l : List Instruction) :
    (l.flatMap (fun x => P x ++ [x])).length = l.length + (l.flatMap P).length := by
  induction l with
  | nil => rfl
  | cons x l ih =>
    simp only [List.flatMap_cons, List.length_append, List.length_cons, List.length_nil, ih]
    omega

theorem countP_flatMap_of_ite (g q : Instruction → Bool) (P : Instruction → List Instruction)
    (l : List Instruction) (h : ∀ x ∈ l, (P x).countP g = if q x then 1 else 0) :
    (l.flatMap P).countP g = l.countP q := by
  induction l with
  | nil => rfl
  | cons x l ih =>
    rw [List.flatMap_cons, List.countP_append, List.countP_cons,
      ih (fun y hy => h y (List.mem_cons_of_mem _ hy)), h x (List.mem_cons_self _ _)]
    omega

theorem length_flatMap_of_ite (q1 q2 : Instruction → Bool) (P : Instruction → List Instruction)
    (l : List Instruction)
    (h : ∀ x ∈ l, (P x).length = (if q1 x then 1 else 0) + (if q2 x then 1 else 0)) :
    (l.flatMap P).length = l.countP q1 + l.countP q2 := by
  induction l with
  | nil => rfl
  | cons x l ih =>
    rw [List.flatMap_cons, List.length_append, List.countP_cons, List.countP_cons,
      ih (fun y hy => h y (List.mem_cons_of_mem _ hy)), h x (List.mem_cons_self _ _)]
    omega

theorem probeCalls_eq_nil_iff (U : Utils) (covTy binTy : FunctionType) (n1 n2 : Nat)
    (I : Instruction) : probeCalls U covTy binTy n1 n2 I = [] ↔ I.isLocated = false := by
  unfold probeCalls Instruction.isLocated
  cases hr : resolve I with
  | none => simp
  | some lc => simp

theorem probeCalls_countP_coverage (U : Utils) (covTy binTy : FunctionType) (n1 n2 : Nat)
    (I : Instruction) :
    (probeCalls U covTy binTy n1 n2 I).countP (fun x => x.isCallTo COVERAGE_FUNCTION_NAME)
      = if I.isLocated then 1 else 0 := by
  have hne : (BINOP_OPERANDS_FUNCTION_NAME == COVERAGE_FUNCTION_NAME) = false := by decide
  unfold probeCalls Instruction.isLocated
  cases hr : resolve I with
  | none => simp
  | some lc =>
    cases hk : I.kind with
    | binaryOperator op a b =>
      simp [List.countP_cons, Instruction.isCallTo, coverageCall, binopCall, hne]
    | call callee fty args => simp [List.countP_cons, Instruction.isCallTo, coverageCall]
    | other opcode operands => simp [List.countP_cons, Instruction.isCallTo, coverageCall]

theorem probeCalls_countP_binop (U : Utils) (covTy binTy : FunctionType) (n1 n2 : Nat)
    (I : Instruction) :
    (probeCalls U covTy binTy n1 n2 I).countP
        (fun x => x.isCallTo BINOP_OPERANDS_FUNCTION_NAME)
      = if (I.isLocated && I.isBinaryOperator) then 1 else 0 := by
  have hne : (COVERAGE_FUNCTION_NAME == BINOP_OPERANDS_FUNCTION_NAME) = false := by decide
  unfold probeCalls Instruction.isLocated Instruction.isBinaryOperator
  cases hr : resolve I with
  | none => simp
  | some lc =>
    cases hk : I.kind with
    | binaryOperator op a b =>
      simp [List.countP_cons, Instruction.isCallTo, coverageCall, binopCall, hne]
    | call callee fty args => simp [List.countP_cons, Instruction.isCallTo, coverageCall, hne]
    | other opcode operands =>
      simp [List.countP_cons, Instruction.isCallTo, coverageCall, hne]

theorem probeCalls_length (U : Utils) (covTy binTy : FunctionType) (n1 n2 : Nat)
    (I : Instruction) :
    (probeCalls U covTy binTy n1 n2 I).length
      = (if I.isLocated then 1 else 0)
        + (if (I.isLocated && I.isBinaryOperator) then 1 else 0) := by
  unfold probeCalls Instruction.isLocated Instruction.isBinaryOperator
  cases hr : resolve I with
  | none => simp
  | some lc =>
    cases hk : I.kind with
    | binaryOperator op a b => simp
    | call callee fty args => simp
    | other opcode operands => simp

theorem insertedInto_of_mem_probeCalls {U : Utils} {M : Module} {covTy binTy : FunctionType}
    {n1 n2 : Nat} {I p : Instruction} (h1 : M.freshAddr ≤ n1) (h2 : M.freshAddr ≤ n2)
    (hp : p ∈ probeCalls U covTy binTy n1 n2 I) : insertedInto M p = true := by
  simp only [insertedInto, decide_eq_true_eq]
  rcases (mem_probeCalls hp).2 with h | h
  · rw [h.1]; exact h1
  · rw [h.1]; exact h2

theorem insertedInto_of_original {M : Module} {i : Nat} {F : Function}
    (hi : M.functions[i]? = some F) {x : Instruction} (hx : x ∈ F.insts) :
    insertedInto M x = false := by
  have := Module.lt_freshAddr_of_getElem? hi hx
  simp only [insertedInto, decide_eq_false_iff_not]
  omega

theorem isLocated_of_mem_probeCalls {U : Utils} {covTy binTy : FunctionType}
    {n1 n2 : Nat} {I p : Instruction} (hp : p ∈ probeCalls U covTy binTy n1 n2 I) :
    p.isLocated = false := by
  simp [Instruction.isLocated, resolve, (mem_probeCalls hp).1]

theorem isBinaryOperator_of_mem_probeCalls {U : Utils} {covTy binTy : FunctionType}
    {n1 n2 : Nat} {I p : Instruction} (hp : p ∈ probeCalls U covTy binTy n1 n2 I) :
    p.isBinaryOperator = false := by
  have h := (mem_probeCalls hp).2
  unfold Instruction.isCallTo at h
  unfold Instruction.isBinaryOperator
  cases hk : p.kind with
  | binaryOperator op a b => simp [hk] at h
  | call callee fty args => rfl
  | other opcode operands => rfl

/-! ## More on the declaration of the probes -/

theorem Module.getOrInsertFunction_of_some {M : Module} {Name : String} {F : Function}
    (h : M.getFunction Name = some F) (Ret : Ty) (Params : List Ty) :
    M.getOrInsertFunction Name Ret Params = (⟨⟨Ret, Params⟩, F⟩, M) := by
  unfold Module.getOrInsertFunction
  rw [h]

theorem Module.getOrInsertFunction_callee (M : Module) (Name : String) (Ret : Ty)
    (Params : List Ty) :
    (M.getOrInsertFunction Name Ret Params).2.getFunction Name
      = some (M.getOrInsertFunction Name Ret Params).1.callee := by
  cases h : M.getFunction Name with
  | some F =>
    rw [Module.getOrInsertFunction_of_some h]
    exact h
  | none =>
    have h' := h
    unfold Module.getOrInsertFunction
    rw [h]
    unfold Module.getFunction at h' ⊢
    simp only [List.find?_append, h']
    simp

theorem Module.getOrInsertFunction_fty (M : Module) (Name : String) (Ret : Ty)
    (Params : List Ty) : (M.getOrInsertFunction Name Ret Params).1.fty = ⟨Ret, Params⟩ := by
  unfold Module.getOrInsertFunction
  cases h : M.getFunction Name with
  | none => rfl
  | some F => rfl

theorem Module.not_mem_names_of_getFunction_none {M : Module} {Name : String}
    (h : M.getFunction Name = Option.none) : Name ∉ M.functions.map (fun F => F.name) := by
  unfold Module.getFunction at h
  rw [List.find?_eq_none] at h
  intro hmem
  obtain ⟨F, hF, hn⟩ := List.mem_map.1 hmem
  exact h F hF (by simp [hn])

theorem Module.mem_names_of_getFunction_isSome {M : Module} {Name : String}
    (h : (M.getFunction Name).isSome) : Name ∈ M.functions.map (fun F => F.name) := by
  obtain ⟨F, hF⟩ := Option.isSome_iff_exists.1 h
  have hn := Module.getFunction_name hF
  unfold Module.getFunction at hF
  exact List.mem_map.2 ⟨F, List.mem_of_find?_eq_some hF, hn⟩

theorem Module.getOrInsertFunction_uniqueNames {M : Module} (h : M.UniqueNames)
    (Name : String) (Ret : Ty) (Params : List Ty) :
    (M.getOrInsertFunction Name Ret Params).2.UniqueNames := by
  unfold Module.UniqueNames at h ⊢
  rw [Module.getOrInsertFunction_functions]
  cases hg : M.getFunction Name with
  | some F => simpa using h
  | none =>
    simp only [Option.isSome_none, Bool.false_eq_true, if_false, List.map_append, List.map_cons,
      List.map_nil]
    rw [List.nodup_append]
    refine ⟨h, List.nodup_singleton _, ?_⟩
    intro a ha hb
    simp only [List.mem_singleton] at hb
    subst hb
    exact Module.not_mem_names_of_getFunction_none hg ha

theorem declareProbes_uniqueNames {M : Module} (h : M.UniqueNames) :
    (declareProbes M).2.UniqueNames := by
  unfold declareProbes
  exact Module.getOrInsertFunction_uniqueNames
    (Module.getOrInsertFunction_uniqueNames h _ _ _) _ _ _

theorem Module.countNamed_eq_one {M : Module} (h : M.UniqueNames) {Name : String}
    (hs : (M.getFunction Name).isSome) : M.countNamed Name = 1 :=
  List.count_eq_one_of_mem h (Module.mem_names_of_getFunction_isSome hs)

theorem declareProbes_of_isSome {M : Module} {cF bF : Function}
    (hc : M.getFunction COVERAGE_FUNCTION_NAME = some cF)
    (hb : M.getFunction BINOP_OPERANDS_FUNCTION_NAME = some bF) :
    declareProbes M = ((⟨coverageSignature, cF⟩, ⟨binopSignature, bF⟩), M) := by
  unfold declareProbes
  simp only [Module.getOrInsertFunction_of_some hc, Module.getOrInsertFunction_of_some hb]
  rfl

theorem declareProbes_idempotent (M : Module) :
    declareProbes (declareProbes M).2 = declareProbes M := by
  have h1 := Module.getOrInsertFunction_callee M COVERAGE_FUNCTION_NAME VoidType
    [Int32Type, Int32Type]
  have h2 := Module.getOrInsertFunction_callee
    (M.getOrInsertFunction COVERAGE_FUNCTION_NAME VoidType [Int32Type, Int32Type]).2
    BINOP_OPERANDS_FUNCTION_NAME VoidType [Int8Type, Int32Type, Int32Type, Int32Type, Int32Type]
  have h1' : (declareProbes M).2.getFunction COVERAGE_FUNCTION_NAME
      = some (declareProbes M).1.1.callee := by
    unfold declareProbes
    simp only
    rw [Module.getFunction_append_of_isSome (Module.getOrInsertFunction_functions _ _ _ _)
      (by rw [h1]; rfl)]
    exact h1
  have h2' : (declareProbes M).2.getFunction BINOP_OPERANDS_FUNCTION_NAME
      = some (declareProbes M).1.2.callee := by
    unfold declareProbes
    exact h2
  rw [declareProbes_of_isSome h1' h2']
  have e1 : (declareProbes M).1.1.fty = coverageSignature := by
    unfold declareProbes
    exact Module.getOrInsertFunction_fty _ _ _ _
  have e2 : (declareProbes M).1.2.fty = binopSignature := by
    unfold declareProbes
    exact Module.getOrInsertFunction_fty _ _ _ _
  rw [← e1, ← e2]

theorem Module.getOrInsertFunction_of_none {M : Module} {Name : String}
    (h : M.getFunction Name = Option.none) (Ret : Ty) (Params : List Ty) :
    (M.getOrInsertFunction Name Ret Params).1.callee = ⟨Name, ⟨Ret, Params⟩, []⟩ := by
  unfold Module.getOrInsertFunction
  rw [h]

theorem declareProbes_fresh_coverage {M : Module}
    (h : M.getFunction COVERAGE_FUNCTION_NAME = Option.none) :
    (declareProbes M).1.1.callee = ⟨COVERAGE_FUNCTION_NAME, coverageSignature, []⟩ := by
  unfold declareProbes
  exact Module.getOrInsertFunction_of_none h _ _

theorem declareProbes_fresh_binop {M : Module}
    (h : M.getFunction BINOP_OPERANDS_FUNCTION_NAME = Option.none) :
    (declareProbes M).1.2.callee = ⟨BINOP_OPERANDS_FUNCTION_NAME, binopSignature, []⟩ := by
  have hne : (COVERAGE_FUNCTION_NAME == BINOP_OPERANDS_FUNCTION_NAME) = false := by decide
  have h' : (M.getOrInsertFunction COVERAGE_FUNCTION_NAME VoidType
      [Int32Type, Int32Type]).2.getFunction BINOP_OPERANDS_FUNCTION_NAME = Option.none := by
    have hf := Module.getOrInsertFunction_functions M COVERAGE_FUNCTION_NAME VoidType
      [Int32Type, Int32Type]
    have h0 := h
    unfold Module.getFunction at h0 ⊢
    rw [hf, List.find?_append, h0]
    split
    · rfl
    · simp [List.find?_cons, hne]
  unfold declareProbes
  exact Module.getOrInsertFunction_of_none h' _ _

/-! ## Names of the functions after the pass -/

theorem Module.getFunction_isSome_iff (M : Module) (Name : String) :
    (M.getFunction Name).isSome ↔ Name ∈ M.functions.map (fun F => F.name) := by
  constructor
  · exact Module.mem_names_of_getFunction_isSome
  · intro h
    cases hg : M.getFunction Name with
    | some F => rfl
    | none => exact absurd h (Module.not_mem_names_of_getFunction_none hg)

theorem Module.names_bindInsts (f : Instruction → List Instruction) (M : Module) :
    (M.bindInsts f).functions.map (fun F => F.name) = M.functions.map (fun F => F.name) := by
  simp [Module.bindInsts, Function.bindInsts, List.map_map, Function.comp_def]

theorem DynamicAnalysisPass.run_names (U : Utils) (M : Module) (outs : String)
    (hU : M.UniqueAddrs) :
    ∃ r : PassResult, DynamicAnalysisPass.run U M outs = some r ∧
      r.preserved = PreservedAnalyses.none ∧
      r.module.functions.map (fun F => F.name)
        = (declareProbes M).2.functions.map (fun F => F.name) ∧
      ∀ Name F, (declareProbes M).2.getFunction Name = some F →
        ∃ F', r.module.getFunction Name = some F' ∧ F'.name = F.name ∧ F'.type = F.type := by
  obtain ⟨P, outs', hrun, _, _⟩ := DynamicAnalysisPass.run_spec U M outs hU
  refine ⟨_, hrun, rfl, Module.names_bindInsts _ _, ?_⟩
  intro Name F hF
  refine ⟨F.bindInsts (fun x => P x ++ [x]), ?_, rfl, rfl⟩
  simp only [Module.getFunction_bindInsts, hF, Option.map_some']

theorem declareProbes_getFunction_of_some {M : Module} {Name : String} {F : Function}
    (h : M.getFunction Name = some F) : (declareProbes M).2.getFunction Name = some F := by
  obtain ⟨extra, he, _⟩ := declareProbes_functions M
  rw [Module.getFunction_append_of_isSome he (by rw [h]; rfl)]
  exact h

theorem declareProbes_of_names {M : Module}
    (hc : COVERAGE_FUNCTION_NAME ∈ M.functions.map (fun F => F.name))
    (hb : BINOP_OPERANDS_FUNCTION_NAME ∈ M.functions.map (fun F => F.name)) :
    (declareProbes M).2 = M := by
  obtain ⟨cF, hcF⟩ := Option.isSome_iff_exists.1 ((Module.getFunction_isSome_iff M _).2 hc)
  obtain ⟨bF, hbF⟩ := Option.isSome_iff_exists.1 ((Module.getFunction_isSome_iff M _).2 hb)
  rw [declareProbes_of_isSome hcF hbF]

theorem DynamicAnalysisPass.run_located (U : Utils) (M : Module) (outs : String)
    (hU : M.UniqueAddrs) {i : Nat} {F : Function} (hF : M.functions[i]? = some F) :
    ∃ (r : PassResult) (F' : Function),
      DynamicAnalysisPass.run U M outs = some r ∧ r.module.UniqueAddrs ∧
      r.module.functions[i]? = some F' ∧
      F'.insts.countP Instruction.isLocated = F.insts.countP Instruction.isLocated ∧
      F'.insts.countP (fun x => x.isLocated && x.isBinaryOperator)
        = F.insts.countP (fun x => x.isLocated && x.isBinaryOperator) ∧
      F'.insts.length = F.insts.length + (F.insts.countP Instruction.isLocated
        + F.insts.countP (fun x => x.isLocated && x.isBinaryOperator)) ∧
      (F'.insts.filter (insertedInto M)).countP (fun x => x.isCallTo COVERAGE_FUNCTION_NAME)
        = F.insts.countP Instruction.isLocated ∧
      (F'.insts.filter (insertedInto M)).countP
          (fun x => x.isCallTo BINOP_OPERANDS_FUNCTION_NAME)
        = F.insts.countP (fun x => x.isLocated && x.isBinaryOperator) := by
  obtain ⟨r, P, hrun, _, hun, hget, hP⟩ := DynamicAnalysisPass.run_function U M outs hU hF
  have hins : (F.bindInsts (fun x => P x ++ [x])).insts
      = F.insts.flatMap (fun x => P x ++ [x]) := Function.insts_bindInsts _ _
  have hfilter : (F.insts.flatMap (fun x => P x ++ [x])).filter (insertedInto M)
      = F.insts.flatMap P := by
    apply filter_not_flatMap_snoc _ _ _ (fun x hx => insertedInto_of_original hF hx)
    intro x hx p hp
    obtain ⟨n1, n2, h1, h2, hPx⟩ := hP x hx
    rw [hPx] at hp
    exact insertedInto_of_mem_probeCalls h1 h2 hp
  refine ⟨r, _, hrun, hun, hget, ?_, ?_, ?_, ?_, ?_⟩
  · rw [hins, List.countP_eq_length_filter, List.countP_eq_length_filter,
      filter_flatMap_snoc_of_drop]
    intro x hx p hp
    obtain ⟨n1, n2, _, _, hPx⟩ := hP x hx
    rw [hPx] at hp
    exact isLocated_of_mem_probeCalls hp
  · rw [hins, List.countP_eq_length_filter, List.countP_eq_length_filter,
      filter_flatMap_snoc_of_drop]
    intro x hx p hp
    obtain ⟨n1, n2, _, _, hPx⟩ := hP x hx
    rw [hPx] at hp
    simp [isLocated_of_mem_probeCalls hp]
  · rw [hins, length_flatMap_snoc]
    congr 1
    apply length_flatMap_of_ite
    intro x hx
    obtain ⟨n1, n2, _, _, hPx⟩ := hP x hx
    rw [hPx, probeCalls_length]
  · rw [hins, hfilter]
    apply countP_flatMap_of_ite
    intro x hx
    obtain ⟨n1, n2, _, _, hPx⟩ := hP x hx
    rw [hPx, probeCalls_countP_coverage]
  · rw [hins, hfilter]
    apply countP_flatMap_of_ite
    intro x hx
    obtain ⟨n1, n2, _, _, hPx⟩ := hP x hx
    rw [hPx, probeCalls_countP_binop]

/-! ## The static pass -/

theorem locateInstruction_module (U : Utils) (st : PassState) (I : Instruction) :
    (locateInstruction U st I).module = st.module := by
  unfold locateInstruction
  cases hd : I.debugLoc with
  | none => rfl
  | some DL =>
    cases hk : I.kind with
    | binaryOperator op a b => rfl
    | call callee fty args => rfl
    | other opcode operands => rfl

theorem locateInstruction_outs (U : Utils) (st : PassState) (I : Instruction) :
    (locateInstruction U st I).outs = st.outs ++ reportOf U I := by
  unfold locateInstruction reportOf resolve
  cases hd : I.debugLoc with
  | none => simp
  | some DL =>
    cases hk : I.kind with
    | binaryOperator op a b => simp [PassState.print, String.append_assoc]
    | call callee fty args => simp [PassState.print, String.append_assoc]
    | other opcode operands => simp [PassState.print, String.append_assoc]

theorem foldl_locateInstruction (U : Utils) (l : List Instruction) (st : PassState) :
    (l.foldl (locateInstruction U) st).module = st.module ∧
      (l.foldl (locateInstruction U) st).outs
        = st.outs ++ concatStrings (l.map (reportOf U)) := by
  induction l generalizing st with
  | nil => simp [concatStrings]
  | cons x l ih =>
    rw [List.foldl_cons]
    obtain ⟨h1, h2⟩ := ih (locateInstruction U st x)
    refine ⟨by rw [h1, locateInstruction_module], ?_⟩
    rw [h2, locateInstruction_outs]
    simp [concatStrings, String.append_assoc]

theorem locateFunction_spec (U : Utils) (st : PassState) {i : Nat} {F : Function}
    (h : st.module.functions[i]? = some F) :
    (locateFunction U st i).module = st.module ∧
      (locateFunction U st i).outs = st.outs ++ functionText U F := by
  unfold locateFunction functionText bodyText
  rw [h]
  by_cases hd : F.isDeclaration = true
  · simp [hd]
  · simp only [hd, Bool.false_eq_true, if_false]
    obtain ⟨h1, h2⟩ := foldl_locateInstruction U F.insts
      ((st.print ("Running " ++ "Static Analysis Pass" ++ " on function " ++ F.name ++ "\n")).print
        "Locating Instructions\n")
    refine ⟨by rw [h1]; rfl, ?_⟩
    rw [h2]
    simp only [PassState.print, String.append_assoc]
    rfl

theorem locateFunctions_spec (U : Utils) :
    ∀ (rest pre : List Function) (st : PassState), st.module.functions = pre ++ rest →
      (locateFunctions U pre.length rest.length st).module = st.module ∧
        (locateFunctions U pre.length rest.length st).outs
          = st.outs ++ concatStrings (rest.map (functionText U)) := by
  intro rest
  induction rest with
  | nil =>
    intro pre st _
    simp [locateFunctions, concatStrings]
  | cons F rest ih =>
    intro pre st hfs
    have hget : st.module.functions[pre.length]? = some F := by
      rw [hfs, List.getElem?_append_right (Nat.le_refl _)]
      simp
    obtain ⟨h1, h2⟩ := locateFunction_spec U st hget
    obtain ⟨h3, h4⟩ := ih (pre ++ [F]) (locateFunction U st pre.length)
      (by rw [h1, hfs]; simp)
    simp only [List.length_append, List.length_singleton] at h3 h4
    simp only [List.length_cons, locateFunctions]
    refine ⟨by rw [h3, h1], ?_⟩
    rw [h4, h2]
    simp [concatStrings, String.append_assoc]

theorem declareProbes_countNamed_coverage {M : Module} {F : Function}
    (h : M.getFunction COVERAGE_FUNCTION_NAME = some F) :
    (declareProbes M).2.countNamed COVERAGE_FUNCTION_NAME
      = M.countNamed COVERAGE_FUNCTION_NAME := by
  have hne : (BINOP_OPERANDS_FUNCTION_NAME == COVERAGE_FUNCTION_NAME) = false := by decide
  unfold declareProbes Module.countNamed
  simp only
  rw [Module.getOrInsertFunction_functions, Module.getOrInsertFunction_functions, h]
  simp only [Option.isSome_some, if_true, List.append_nil, List.map_append, List.count_append]
  split
  · simp
  · simp [List.count_cons, hne]

theorem declareProbes_countNamed_binop {M : Module} {F : Function}
    (h : M.getFunction BINOP_OPERANDS_FUNCTION_NAME = some F) :
    (declareProbes M).2.countNamed BINOP_OPERANDS_FUNCTION_NAME
      = M.countNamed BINOP_OPERANDS_FUNCTION_NAME := by
  have hne : (COVERAGE_FUNCTION_NAME == BINOP_OPERANDS_FUNCTION_NAME) = false := by decide
  have h' : ((M.getOrInsertFunction COVERAGE_FUNCTION_NAME VoidType
      [Int32Type, Int32Type]).2.getFunction BINOP_OPERANDS_FUNCTION_NAME).isSome := by
    rw [Module.getFunction_append_of_isSome (Module.getOrInsertFunction_functions _ _ _ _)
      (by rw [h]; rfl), h]
    rfl
  unfold declareProbes Module.countNamed
  simp only
  rw [Module.getOrInsertFunction_functions, Module.getOrInsertFunction_functions]
  simp only [h', if_true, List.append_nil, List.map_append, List.count_append]
  split
  · simp
  · simp [List.count_cons, hne]

theorem ConstantInt.get_toInt (n : Nat) :
    ConstantInt.get Int32Type (toInt n) = Value.constantInt 32 (n % 2 ^ 32) := by
  have h : ConstantInt.get Int32Type (toInt n)
      = Value.constantInt 32 ((toInt n) % 2 ^ 32).toNat := rfl
  rw [h]
  congr 1
  unfold toInt
  split <;> omega

/-! ## The type the inserted calls carry -/

theorem declareProbes_getFunction_coverage (M : Module) :
    (declareProbes M).2.getFunction COVERAGE_FUNCTION_NAME
      = some (declareProbes M).1.1.callee := by
  have h1 := Module.getOrInsertFunction_callee M COVERAGE_FUNCTION_NAME VoidType
    [Int32Type, Int32Type]
  unfold declareProbes
  simp only
  rw [Module.getFunction_append_of_isSome (Module.getOrInsertFunction_functions _ _ _ _)
    (by rw [h1]; rfl)]
  exact h1

theorem declareProbes_getFunction_binop (M : Module) :
    (declareProbes M).2.getFunction BINOP_OPERANDS_FUNCTION_NAME
      = some (declareProbes M).1.2.callee := by
  unfold declareProbes
  exact Module.getOrInsertFunction_callee _ _ _ _

theorem coverageType_eq_signature {M : Module}
    (h : ∀ F, M.getFunction COVERAGE_FUNCTION_NAME = some F → F.type = coverageSignature) :
    coverageType M = coverageSignature := by
  unfold coverageType Module.calleeType
  cases hg : M.getFunction COVERAGE_FUNCTION_NAME with
  | some F => rw [declareProbes_getFunction_of_some hg]; exact h F hg
  | none =>
    rw [declareProbes_getFunction_coverage, declareProbes_fresh_coverage hg]

theorem binopType_eq_signature {M : Module}
    (h : ∀ F, M.getFunction BINOP_OPERANDS_FUNCTION_NAME = some F → F.type = binopSignature) :
    binopType M = binopSignature := by
  unfold binopType Module.calleeType
  cases hg : M.getFunction BINOP_OPERANDS_FUNCTION_NAME with
  | some F => rw [declareProbes_getFunction_of_some hg]; exact h F hg
  | none =>
    rw [declareProbes_getFunction_binop, declareProbes_fresh_binop hg]

theorem mem_probeCalls_kind {U : Utils} {covTy binTy : FunctionType} {n1 n2 : Nat}
    {I p : Instruction} (h : p ∈ probeCalls U covTy binTy n1 n2 I) :
    (I.isLocated = true ∧ ∃ args, p.kind = InstKind.call COVERAGE_FUNCTION_NAME covTy args ∧
        args.length = 2) ∨
      ((I.isLocated && I.isBinaryOperator) = true ∧
        ∃ args, p.kind = InstKind.call BINOP_OPERANDS_FUNCTION_NAME binTy args ∧
          args.length = 5) := by
  unfold probeCalls at h
  cases hr : resolve I with
  | none => simp [hr] at h
  | some lc =>
    obtain ⟨l, c⟩ := lc
    have hloc : I.isLocated = true := by simp [Instruction.isLocated, hr]
    simp only [hr, List.mem_cons] at h
    rcases h with h | h
    · subst h
      exact Or.inl ⟨hloc, _, rfl, rfl⟩
    · cases hk : I.kind with
      | binaryOperator op a b =>
        simp only [hk, List.mem_singleton] at h
        subst h
        exact Or.inr ⟨by simp [hloc, Instruction.isBinaryOperator, hk], _, rfl, rfl⟩
      | call callee fty args => simp [hk] at h
      | other opcode operands => simp [hk] at h

theorem DynamicAnalysisPass.run_module (U : Utils) (M : Module) (outs : String)
    (hU : M.UniqueAddrs) :
    ∃ r : PassResult, DynamicAnalysisPass.run U M outs = some r ∧
      r.module.allInsts.filter (fun x => !insertedInto M x) = M.allInsts ∧
      (r.module.allInsts.filter (insertedInto M)).length
        = M.allInsts.countP Instruction.isLocated
          + M.allInsts.countP (fun x => x.isLocated && x.isBinaryOperator) ∧
      ∀ p ∈ r.module.allInsts, insertedInto M p = true →
        ∃ x ∈ M.allInsts, ∃ n1 n2, p ∈ probeCalls U (coverageType M) (binopType M) n1 n2 x := by
  obtain ⟨P, outs', hrun, _, hP⟩ := DynamicAnalysisPass.run_spec U M outs hU
  have hall : ((declareProbes M).2.bindInsts (fun x => P x ++ [x])).allInsts
      = M.allInsts.flatMap (fun x => P x ++ [x]) := by
    rw [Module.allInsts_bindInsts, declareProbes_allInsts]
  have horig : ∀ x ∈ M.allInsts, insertedInto M x = false := by
    intro x hx
    have := Module.lt_freshAddr hx
    simp only [insertedInto, decide_eq_false_iff_not]
    omega
  have hnew : ∀ x ∈ M.allInsts, ∀ p ∈ P x, insertedInto M p = true := by
    intro x hx p hp
    obtain ⟨n1, n2, h1, h2, hPx⟩ := hP x hx
    rw [hPx] at hp
    exact insertedInto_of_mem_probeCalls h1 h2 hp
  refine ⟨_, hrun, ?_, ?_, ?_⟩
  · rw [hall]
    exact filter_flatMap_snoc _ P M.allInsts (fun x hx => by simp [horig x hx])
      (fun x hx p hp => by simp [hnew x hx p hp])
  · rw [hall, filter_not_flatMap_snoc _ _ _ horig hnew]
    apply length_flatMap_of_ite
    intro x hx
    obtain ⟨n1, n2, _, _, hPx⟩ := hP x hx
    rw [hPx, probeCalls_length]
  · intro p hp hpi
    rw [hall] at hp
    rcases mem_flatMap_snoc hp with hp | ⟨x, hx, hp⟩
    · rw [horig p hp] at hpi
      cases hpi
    · obtain ⟨n1, n2, _, _, hPx⟩ := hP x hx
      rw [hPx] at hp
      exact ⟨x, hx, n1, n2, hp⟩

/-! ## Layout around one located instruction -/

theorem not_mem_flatMap_snoc {P : Instruction → List Instruction} {l : List Instruction}
    {I : Instruction} {k : Nat} (hP : ∀ x ∈ l, ∀ p ∈ P x, k ≤ p.addr) (hI : I.addr < k)
    (hl : I ∉ l) : I ∉ l.flatMap (fun x => P x ++ [x]) := by
  intro h
  rcases mem_flatMap_snoc h with h | ⟨x, hx, hp⟩
  · exact hl h
  · have := hP x hx I hp
    omega

theorem getLast?_flatMap_snoc {P : Instruction → List Instruction} (l : List Instruction) :
    (l.flatMap (fun x => P x ++ [x])).getLast? = l.getLast? := by
  rcases List.eq_nil_or_concat l with rfl | ⟨init, z, rfl⟩
  · rfl
  · rw [List.concat_eq_append, List.flatMap_append, List.flatMap_cons, List.flatMap_nil,
      List.append_nil, ← List.append_assoc, List.getLast?_concat, List.getLast?_concat]

theorem DynamicAnalysisPass.layout (U : Utils) (M : Module) (outs : String)
    (hU : M.UniqueAddrs) {i : Nat} {F : Function} {I : Instruction}
    (hF : M.functions[i]? = some F) (hI : I ∈ F.insts) :
    ∃ (r : PassResult) (F' : Function) (pre post : List Instruction) (n1 n2 : Nat),
      DynamicAnalysisPass.run U M outs = some r ∧ r.module.functions[i]? = some F' ∧
      F'.insts = pre ++ (probeCalls U (coverageType M) (binopType M) n1 n2 I ++ I :: post) ∧
      M.freshAddr ≤ n1 ∧ M.freshAddr ≤ n2 ∧ I ∉ pre ∧ I ∉ post ∧
      ∀ q, pre.getLast? = some q → q.addr < M.freshAddr := by
  obtain ⟨r, P, hrun, _, _, hget, hP⟩ := DynamicAnalysisPass.run_function U M outs hU hF
  obtain ⟨o1, o2, ho⟩ := List.append_of_mem hI
  obtain ⟨n1, n2, h1, h2, hPI⟩ := hP I hI
  have hnd := Module.nodup_insts_of_getElem? hU hF
  rw [ho, List.map_append, List.map_cons] at hnd
  have hnd' := List.nodup_append.1 hnd
  have hI1 : I ∉ o1 := by
    intro h
    exact hnd'.2.2 (List.mem_map_of_mem _ h) (List.mem_cons_self _ _)
  have hI2 : I ∉ o2 := by
    intro h
    exact (List.nodup_cons.1 hnd'.2.1).1 (List.mem_map_of_mem _ h)
  have hlt := Module.lt_freshAddr_of_getElem? hF hI
  have hfresh : ∀ l : List Instruction, (∀ x ∈ l, x ∈ F.insts) →
      ∀ x ∈ l, ∀ p ∈ P x, M.freshAddr ≤ p.addr := by
    intro l hl x hx p hp
    obtain ⟨m1, m2, hm1, hm2, hPx⟩ := hP x (hl x hx)
    rw [hPx] at hp
    rcases (mem_probeCalls hp).2 with h | h
    · rw [h.1]; exact hm1
    · rw [h.1]; exact hm2
  have ho1 : ∀ x ∈ o1, x ∈ F.insts := fun x hx => ho ▸ List.mem_append_left _ hx
  have ho2 : ∀ x ∈ o2, x ∈ F.insts :=
    fun x hx => ho ▸ List.mem_append_right _ (List.mem_cons_of_mem _ hx)
  refine ⟨r, _, o1.flatMap (fun x => P x ++ [x]), o2.flatMap (fun x => P x ++ [x]), n1, n2,
    hrun, hget, ?_, h1, h2, ?_, ?_, ?_⟩
  · rw [Function.insts_bindInsts, flatMap_split _ ho, hPI]
    simp
  · exact not_mem_flatMap_snoc (hfresh o1 ho1) hlt hI1
  · exact not_mem_flatMap_snoc (hfresh o2 ho2) hlt hI2
  · intro q hq
    rw [getLast?_flatMap_snoc] at hq
    exact Module.lt_freshAddr_of_getElem? hF (ho1 q (List.mem_of_getLast?_eq_some hq))

/-! ## The claims -/

/-- C1: for every function of a module and every instruction `I` of it that has
the source location `(l, c)` when the Dynamic Instrumenter starts, in the
instrumented function (a) if `I` is not a binary operator, the instruction
directly before `I` is a call to the coverage probe with arguments `(l, c)`;
(b) if `I` is a binary operator with opcode `op` and operands `a`, `b`, the two
instructions directly before `I` are a coverage call with arguments `(l, c)` and
then a binary-operand call with arguments `(symbolOf(op), l, c, a, b)`.  The calls
are new instruction objects and `I` itself occurs once. -/
theorem C1_local_layout (U : Utils) (M : Module) (outs : String) (hU : M.UniqueAddrs)
    (i : Nat) (F : Function) (I : Instruction) (l c : Int)
    (hF : M.functions[i]? = some F) (hI : I ∈ F.insts) (hloc : resolve I = some (l, c)) :
    ∃ (r : PassResult) (F' : Function),
      DynamicAnalysisPass.run U M outs = some r ∧ r.module.functions[i]? = some F' ∧
      (I.isBinaryOperator = false →
        ∃ pre post n, F'.insts = pre ++ coverageCall (coverageType M) n l c :: I :: post ∧
          M.freshAddr ≤ n ∧ I ∉ pre ∧ I ∉ post) ∧
      (∀ op a b, I.kind = InstKind.binaryOperator op a b →
        ∃ pre post n1 n2,
          F'.insts = pre ++ coverageCall (coverageType M) n1 l c ::
            binopCall U (binopType M) n2 op l c a b :: I :: post ∧
          M.freshAddr ≤ n1 ∧ M.freshAddr ≤ n2 ∧ I ∉ pre ∧ I ∉ post) := by
  obtain ⟨r, F', pre, post, n1, n2, hrun, hget, hins, h1, h2, hpre, hpost, _⟩ :=
    DynamicAnalysisPass.layout U M outs hU hF hI
  refine ⟨r, F', hrun, hget, ?_, ?_⟩
  · intro hb
    refine ⟨pre, post, n1, ?_, h1, hpre, hpost⟩
    rw [hins]
    cases hk : I.kind with
    | binaryOperator op a b => simp [Instruction.isBinaryOperator, hk] at hb
    | call callee fty args => simp [probeCalls, hloc, hk]
    | other opcode operands => simp [probeCalls, hloc, hk]
  · intro op a b hk
    refine ⟨pre, post, n1, n2, ?_, h1, h2, hpre, hpost⟩
    rw [hins]
    simp [probeCalls, hloc, hk]

/-- Witness of C1 at the scenario `a = x + y` at line 10, column 4. -/
theorem C1_local_layout_witness :
    addModule.UniqueAddrs ∧
    resolve addInst = some (10, 4) ∧
    ∃ (r : PassResult) (F' : Function),
      DynamicAnalysisPass.run scenarioUtils addModule "" = some r ∧
      r.module.functions[0]? = some F' ∧
      (addInst.isBinaryOperator = false →
        ∃ pre post n,
          F'.insts = pre ++ coverageCall (coverageType addModule) n 10 4 :: addInst :: post ∧
          addModule.freshAddr ≤ n ∧ addInst ∉ pre ∧ addInst ∉ post) ∧
      (∀ op a b, addInst.kind = InstKind.binaryOperator op a b →
        ∃ pre post n1 n2,
          F'.insts = pre ++ coverageCall (coverageType addModule) n1 10 4 ::
            binopCall scenarioUtils (binopType addModule) n2 op 10 4 a b :: addInst :: post ∧
          addModule.freshAddr ≤ n1 ∧ addModule.freshAddr ≤ n2 ∧ addInst ∉ pre ∧
          addInst ∉ post) :=
  ⟨by decide, by decide,
    C1_local_layout scenarioUtils addModule "" (by decide) 0
      ⟨"f", ⟨Ty.int 32, [Ty.int 32, Ty.int 32]⟩, [[addInst, retInst]]⟩ addInst 10 4 rfl
      (by simp [Function.insts]) (by decide)⟩

/-- C2 (as stated) fails: in the scenario `a = x + y` at line 10, column 4 the
instrumented function is coverage call, binary-operand call, add, return; the
instruction directly before the located add is the binary-operand call, which
is not a coverage call, and the contiguous triple is (coverage call,
binary-operand call, add), not (binary-operand call, coverage call, add). -/
theorem C2_counterexample :
    addInst.isLocated = true ∧
    (DynamicAnalysisPass.run scenarioUtils addModule "").map
        (fun r => r.module.functions.map Function.insts)
      = some [[coverageCall ⟨Ty.void, [Ty.int 32, Ty.int 32]⟩ 3 10 4,
          binopCall scenarioUtils
            ⟨Ty.void, [Ty.int 8, Ty.int 32, Ty.int 32, Ty.int 32, Ty.int 32]⟩ 4
            BinaryOps.Add 10 4 (Value.named "x") (Value.named "y"),
          addInst, retInst], [], []] ∧
    (DynamicAnalysisPass.run scenarioUtils addModule "").map
        (fun r => r.module.functions.map
          (fun F => (instBefore addInst F.insts).map
            (fun p => p.isCallTo COVERAGE_FUNCTION_NAME)))
      = some [some false, Option.none, Option.none] := by
  refine ⟨by decide, by decide, by decide⟩

/-- C2 (amended): for every instruction `I` with a source location, in the
instrumented function `I` is directly preceded by a run `ps` of calls inserted
by the pass, the instruction before that run (if any) being an original one;
`ps` is exactly one coverage call, followed by exactly one binary-operand call
iff `I` is a binary operator.  So the contiguous order is coverage call,
binary-operand call, original instruction. -/
theorem C2_probe_order (U : Utils) (M : Module) (outs : String) (hU : M.UniqueAddrs)
    (i : Nat) (F : Function) (I : Instruction)
    (hF : M.functions[i]? = some F) (hI : I ∈ F.insts) (hloc : I.isLocated = true) :
    ∃ (r : PassResult) (F' : Function) (pre ps post : List Instruction),
      DynamicAnalysisPass.run U M outs = some r ∧ r.module.functions[i]? = some F' ∧
      F'.insts = pre ++ ps ++ I :: post ∧ I ∉ pre ∧ I ∉ post ∧
      (∀ q, pre.getLast? = some q → insertedInto M q = false) ∧
      (∀ p ∈ ps, insertedInto M p = true ∧ p.debugLoc = Option.none) ∧
      ps.map Instruction.calledName
        = some COVERAGE_FUNCTION_NAME ::
            (if I.isBinaryOperator then [some BINOP_OPERANDS_FUNCTION_NAME] else []) := by
  obtain ⟨r, F', pre, post, n1, n2, hrun, hget, hins, h1, h2, hpre, hpost, hlast⟩ :=
    DynamicAnalysisPass.layout U M outs hU hF hI
  refine ⟨r, F', pre, probeCalls U (coverageType M) (binopType M) n1 n2 I, post, hrun, hget,
    by rw [hins, List.append_assoc], hpre, hpost, ?_, ?_, ?_⟩
  · intro q hq
    have := hlast q hq
    simp only [insertedInto, decide_eq_false_iff_not]
    omega
  · intro p hp
    have hm := mem_probeCalls hp
    refine ⟨?_, hm.1⟩
    simp only [insertedInto, decide_eq_true_eq]
    rcases hm.2 with h | h
    · rw [h.1]; exact h1
    · rw [h.1]; exact h2
  · obtain ⟨lc, hlc⟩ := Option.isSome_iff_exists.1 hloc
    obtain ⟨l, c⟩ := lc
    cases hk : I.kind with
    | binaryOperator op a b =>
      simp [probeCalls, hlc, hk, Instruction.isBinaryOperator, Instruction.calledName,
        coverageCall, binopCall]
    | call callee fty args =>
      simp [probeCalls, hlc, hk, Instruction.isBinaryOperator, Instruction.calledName,
        coverageCall]
    | other opcode operands =>
      simp [probeCalls, hlc, hk, Instruction.isBinaryOperator, Instruction.calledName,
        coverageCall]

/-- Witness of C2 (amended) at the scenario `a = x + y` at line 10, column 4. -/
theorem C2_probe_order_witness :
    addModule.UniqueAddrs ∧ addInst.isLocated = true ∧
    ∃ (r : PassResult) (F' : Function) (pre ps post : List Instruction),
      DynamicAnalysisPass.run scenarioUtils addModule "" = some r ∧
      r.module.functions[0]? = some F' ∧
      F'.insts = pre ++ ps ++ addInst :: post ∧ addInst ∉ pre ∧ addInst ∉ post ∧
      (∀ q, pre.getLast? = some q → insertedInto addModule q = false) ∧
      (∀ p ∈ ps, insertedInto addModule p = true ∧ p.debugLoc = Option.none) ∧
      ps.map Instruction.calledName
        = some COVERAGE_FUNCTION_NAME ::
            (if addInst.isBinaryOperator then [some BINOP_OPERANDS_FUNCTION_NAME] else []) :=
  ⟨by decide, by decide,
    C2_probe_order scenarioUtils addModule "" (by decide) 0
      ⟨"f", ⟨Ty.int 32, [Ty.int 32, Ty.int 32]⟩, [[addInst, retInst]]⟩ addInst rfl
      (by simp [Function.insts]) (by decide)⟩

/-- C3: snapshot exactness.  For every function `F` with `n` instructions, `L` of
them located when the pass starts and `B` of those binary operators, the
instrumented function consists of the original instructions, each preceded by
the calls `P x` inserted for it; `P x` is non-empty exactly for the located
instructions, so the instrumented set is the set of instructions located at the
start and no inserted call gets calls of its own.  The pass inserts exactly `L`
coverage calls and exactly `B` binary-operand calls, `L + B` instructions in
all, and the function ends with `n + L + B` instructions. -/
theorem C3_snapshot_exact (U : Utils) (M : Module) (outs : String) (hU : M.UniqueAddrs)
    (i : Nat) (F : Function) (hF : M.functions[i]? = some F) :
    ∃ (r : PassResult) (F' : Function) (P : Instruction → List Instruction),
      DynamicAnalysisPass.run U M outs = some r ∧ r.module.functions[i]? = some F' ∧
      F'.insts = F.insts.flatMap (fun x => P x ++ [x]) ∧
      (∀ x ∈ F.insts, insertedInto M x = false ∧ (P x ≠ [] ↔ x.isLocated = true) ∧
        ∀ p ∈ P x, insertedInto M p = true) ∧
      F'.insts.length = F.insts.length + F.insts.countP Instruction.isLocated
        + F.insts.countP (fun x => x.isLocated && x.isBinaryOperator) ∧
      (F'.insts.filter (insertedInto M)).countP (fun x => x.isCallTo COVERAGE_FUNCTION_NAME)
        = F.insts.countP Instruction.isLocated ∧
      (F'.insts.filter (insertedInto M)).countP
          (fun x => x.isCallTo BINOP_OPERANDS_FUNCTION_NAME)
        = F.insts.countP (fun x => x.isLocated && x.isBinaryOperator) ∧
      (F'.insts.filter (insertedInto M)).length = F.insts.countP Instruction.isLocated
        + F.insts.countP (fun x => x.isLocated && x.isBinaryOperator) := by
  obtain ⟨r, P, hrun, _, _, hget, hP⟩ := DynamicAnalysisPass.run_function U M outs hU hF
  have hins : (F.bindInsts (fun x => P x ++ [x])).insts
      = F.insts.flatMap (fun x => P x ++ [x]) := Function.insts_bindInsts _ _
  have horig : ∀ x ∈ F.insts, insertedInto M x = false :=
    fun x hx => insertedInto_of_original hF hx
  have hnew : ∀ x ∈ F.insts, ∀ p ∈ P x, insertedInto M p = true := by
    intro x hx p hp
    obtain ⟨n1, n2, h1, h2, hPx⟩ := hP x hx
    rw [hPx] at hp
    exact insertedInto_of_mem_probeCalls h1 h2 hp
  have hfilter : (F.insts.flatMap (fun x => P x ++ [x])).filter (insertedInto M)
      = F.insts.flatMap P := filter_not_flatMap_snoc _ _ _ horig hnew
  have hlen : (F.insts.flatMap P).length = F.insts.countP Instruction.isLocated
      + F.insts.countP (fun x => x.isLocated && x.isBinaryOperator) := by
    apply length_flatMap_of_ite
    intro x hx
    obtain ⟨n1, n2, _, _, hPx⟩ := hP x hx
    rw [hPx, probeCalls_length]
  refine ⟨r, _, P, hrun, hget, hins, ?_, ?_, ?_, ?_, ?_⟩
  · intro x hx
    refine ⟨horig x hx, ?_, hnew x hx⟩
    obtain ⟨n1, n2, _, _, hPx⟩ := hP x hx
    rw [hPx, Ne, probeCalls_eq_nil_iff]
    simp
  · rw [hins, length_flatMap_snoc, hlen, Nat.add_assoc]
  · rw [hins, hfilter]
    apply countP_flatMap_of_ite
    intro x hx
    obtain ⟨n1, n2, _, _, hPx⟩ := hP x hx
    rw [hPx, probeCalls_countP_coverage]
  · rw [hins, hfilter]
    apply countP_flatMap_of_ite
    intro x hx
    obtain ⟨n1, n2, _, _, hPx⟩ := hP x hx
    rw [hPx, probeCalls_countP_binop]
  · rw [hins, hfilter, hlen]

/-- Witness of C3 at the scenario module. -/
theorem C3_snapshot_exact_witness :
    addModule.UniqueAddrs ∧
    ∃ (r : PassResult) (F' : Function) (P : Instruction → List Instruction),
      DynamicAnalysisPass.run scenarioUtils addModule "" = some r ∧
      r.module.functions[0]? = some F' ∧
      F'.insts = [addInst, retInst].flatMap (fun x => P x ++ [x]) ∧
      (∀ x ∈ [addInst, retInst], insertedInto addModule x = false ∧
        (P x ≠ [] ↔ x.isLocated = true) ∧ ∀ p ∈ P x, insertedInto addModule p = true) ∧
      F'.insts.length = [addInst, retInst].length
        + [addInst, retInst].countP Instruction.isLocated
        + [addInst, retInst].countP (fun x => x.isLocated && x.isBinaryOperator) ∧
      (F'.insts.filter (insertedInto addModule)).countP
          (fun x => x.isCallTo COVERAGE_FUNCTION_NAME)
        = [addInst, retInst].countP Instruction.isLocated ∧
      (F'.insts.filter (insertedInto addModule)).countP
          (fun x => x.isCallTo BINOP_OPERANDS_FUNCTION_NAME)
        = [addInst, retInst].countP (fun x => x.isLocated && x.isBinaryOperator) ∧
      (F'.insts.filter (insertedInto addModule)).length
        = [addInst, retInst].countP Instruction.isLocated
          + [addInst, retInst].countP (fun x => x.isLocated && x.isBinaryOperator) :=
  ⟨by decide,
    C3_snapshot_exact scenarioUtils addModule "" (by decide) 0
      ⟨"f", ⟨Ty.int 32, [Ty.int 32, Ty.int 32]⟩, [[addInst, retInst]]⟩ rfl⟩

/-- C4: a function in which no instruction carries a source location is left
as it is by the Dynamic Instrumenter: the same function, with the same
instruction sequence, stands at its place in the resulting module. -/
theorem C4_unlocated_unchanged (U : Utils) (M : Module) (outs : String) (hU : M.UniqueAddrs)
    (i : Nat) (F : Function) (hF : M.functions[i]? = some F)
    (hnone : ∀ I ∈ F.insts, I.debugLoc = Option.none) :
    ∃ r : PassResult, DynamicAnalysisPass.run U M outs = some r ∧
      r.module.functions[i]? = some F := by
  obtain ⟨r, P, hrun, _, _, hget, hP⟩ := DynamicAnalysisPass.run_function U M outs hU hF
  refine ⟨r, hrun, ?_⟩
  rw [hget, Function.bindInsts_ext F (g := fun x => [x]), Function.bindInsts_id]
  intro x hx
  obtain ⟨n1, n2, _, _, hPx⟩ := hP x hx
  rw [hPx]
  simp [probeCalls, resolve, hnone x hx]

/-- Witness of C4: a function containing only a return instruction with no debug
location. -/
theorem C4_unlocated_unchanged_witness :
    retModule.UniqueAddrs ∧
    (∀ I ∈ (⟨"g", ⟨Ty.void, []⟩, [[retInst]]⟩ : Function).insts, I.debugLoc = Option.none) ∧
    ∃ r : PassResult, DynamicAnalysisPass.run scenarioUtils retModule "" = some r ∧
      r.module.functions[0]? = some ⟨"g", ⟨Ty.void, []⟩, [[retInst]]⟩ :=
  ⟨by decide, by simp [Function.insts, retInst],
    C4_unlocated_unchanged scenarioUtils retModule "" (by decide) 0
      ⟨"g", ⟨Ty.void, []⟩, [[retInst]]⟩ rfl (by simp [Function.insts, retInst])⟩

/-- C5: the Dynamic Instrumenter only adds instructions.  For every function,
removing the inserted calls from the instrumented function gives back the
original blocks, hence the original instruction sequence (same instruction
objects with the same opcode, operands and source location, in the same order);
every inserted instruction is a call to one of the two probes and has no source
location; the located instructions of the instrumented function are the located
instructions of the original one. -/
theorem C5_only_adds (U : Utils) (M : Module) (outs : String) (hU : M.UniqueAddrs)
    (i : Nat) (F : Function) (hF : M.functions[i]? = some F) :
    ∃ (r : PassResult) (F' : Function),
      DynamicAnalysisPass.run U M outs = some r ∧ r.module.functions[i]? = some F' ∧
      F'.name = F.name ∧ F'.type = F.type ∧
      F'.blocks.map (fun b => b.filter (fun x => !insertedInto M x)) = F.blocks ∧
      F'.insts.filter (fun x => !insertedInto M x) = F.insts ∧
      (∀ p ∈ F'.insts, insertedInto M p = true →
        p.debugLoc = Option.none ∧
        (p.isCallTo COVERAGE_FUNCTION_NAME = true ∨
          p.isCallTo BINOP_OPERANDS_FUNCTION_NAME = true)) ∧
      F'.insts.filter Instruction.isLocated = F.insts.filter Instruction.isLocated := by
  obtain ⟨r, P, hrun, _, _, hget, hP⟩ := DynamicAnalysisPass.run_function U M outs hU hF
  have hins : (F.bindInsts (fun x => P x ++ [x])).insts
      = F.insts.flatMap (fun x => P x ++ [x]) := Function.insts_bindInsts _ _
  have horig : ∀ x ∈ F.insts, (!insertedInto M x) = true := by
    intro x hx
    simp [insertedInto_of_original hF hx]
  have hnew : ∀ x ∈ F.insts, ∀ p ∈ P x, (!insertedInto M p) = false := by
    intro x hx p hp
    obtain ⟨n1, n2, h1, h2, hPx⟩ := hP x hx
    rw [hPx] at hp
    simp [insertedInto_of_mem_probeCalls h1 h2 hp]
  refine ⟨r, _, hrun, hget, rfl, rfl, ?_, ?_, ?_, ?_⟩
  · simp only [Function.bindInsts, List.map_map]
    conv_rhs => rw [← List.map_id F.blocks]
    apply List.map_congr_left
    intro b hb
    simp only [Function.comp_apply, id_eq]
    exact filter_flatMap_snoc _ P b
      (fun x hx => horig x (List.mem_flatten.2 ⟨b, hb, hx⟩))
      (fun x hx => hnew x (List.mem_flatten.2 ⟨b, hb, hx⟩))
  · rw [hins]
    exact filter_flatMap_snoc _ P F.insts horig hnew
  · intro p hp hpi
    rw [hins] at hp
    rcases mem_flatMap_snoc hp with hp | ⟨x, hx, hp⟩
    · rw [insertedInto_of_original hF hp] at hpi
      cases hpi
    · obtain ⟨n1, n2, _, _, hPx⟩ := hP x hx
      rw [hPx] at hp
      have hm := mem_probeCalls hp
      refine ⟨hm.1, ?_⟩
      rcases hm.2 with h | h
      · exact Or.inl h.2
      · exact Or.inr h.2
  · rw [hins]
    apply filter_flatMap_snoc_of_drop
    intro x hx p hp
    obtain ⟨n1, n2, _, _, hPx⟩ := hP x hx
    rw [hPx] at hp
    exact isLocated_of_mem_probeCalls hp

/-- Witness of C5 at the scenario module. -/
theorem C5_only_adds_witness :
    addModule.UniqueAddrs ∧
    ∃ (r : PassResult) (F' : Function),
      DynamicAnalysisPass.run scenarioUtils addModule "" = some r ∧
      r.module.functions[0]? = some F' ∧
      F'.name = "f" ∧ F'.type = ⟨Ty.int 32, [Ty.int 32, Ty.int 32]⟩ ∧
      F'.blocks.map (fun b => b.filter (fun x => !insertedInto addModule x))
        = [[addInst, retInst]] ∧
      F'.insts.filter (fun x => !insertedInto addModule x)
        = (⟨"f", ⟨Ty.int 32, [Ty.int 32, Ty.int 32]⟩, [[addInst, retInst]]⟩ : Function).insts ∧
      (∀ p ∈ F'.insts, insertedInto addModule p = true →
        p.debugLoc = Option.none ∧
        (p.isCallTo COVERAGE_FUNCTION_NAME = true ∨
          p.isCallTo BINOP_OPERANDS_FUNCTION_NAME = true)) ∧
      F'.insts.filter Instruction.isLocated
        = (⟨"f", ⟨Ty.int 32, [Ty.int 32, Ty.int 32]⟩, [[addInst, retInst]]⟩ :
            Function).insts.filter Instruction.isLocated :=
  ⟨by decide,
    C5_only_adds scenarioUtils addModule "" (by decide) 0
      ⟨"f", ⟨Ty.int 32, [Ty.int 32, Ty.int 32]⟩, [[addInst, retInst]]⟩ rfl⟩

/-- C6: declaring the probes is idempotent.  Performing the declaration step on
its own result returns the same two declarations and the same module as
performing it once; in a module whose symbol table binds every name once the
result holds exactly one function named `__coverage__` and exactly one named
`__binop_op__`; a probe whose name was not bound before is declared without body
with exactly its fixed signature. -/
theorem C6_declare_idempotent (M : Module) (hN : M.UniqueNames) :
    declareProbes (declareProbes M).2 = declareProbes M ∧
    (declareProbes (declareProbes M).2).2.functions.length
      = (declareProbes M).2.functions.length ∧
    (declareProbes M).2.countNamed COVERAGE_FUNCTION_NAME = 1 ∧
    (declareProbes M).2.countNamed BINOP_OPERANDS_FUNCTION_NAME = 1 ∧
    (declareProbes M).2.getFunction COVERAGE_FUNCTION_NAME
      = some (declareProbes M).1.1.callee ∧
    (declareProbes M).2.getFunction BINOP_OPERANDS_FUNCTION_NAME
      = some (declareProbes M).1.2.callee ∧
    (M.getFunction COVERAGE_FUNCTION_NAME = Option.none →
      (declareProbes M).1.1.callee = ⟨COVERAGE_FUNCTION_NAME, coverageSignature, []⟩) ∧
    (M.getFunction BINOP_OPERANDS_FUNCTION_NAME = Option.none →
      (declareProbes M).1.2.callee
        = ⟨BINOP_OPERANDS_FUNCTION_NAME, binopSignature, []⟩) := by
  have hidem := declareProbes_idempotent M
  have hN1 := declareProbes_uniqueNames hN
  have hc := declareProbes_coverage_isSome M
  have hb := declareProbes_binop_isSome M
  obtain ⟨cF, hcF⟩ := Option.isSome_iff_exists.1 hc
  obtain ⟨bF, hbF⟩ := Option.isSome_iff_exists.1 hb
  have hd := declareProbes_of_isSome hcF hbF
  rw [hidem] at hd
  refine ⟨hidem, by rw [hidem], Module.countNamed_eq_one hN1 hc,
    Module.countNamed_eq_one hN1 hb, ?_, ?_, declareProbes_fresh_coverage,
    declareProbes_fresh_binop⟩
  · rw [hcF, hd]
  · rw [hbF, hd]

/-- Witness of C6 at the scenario module, where no probe is declared yet. -/
theorem C6_declare_idempotent_witness :
    addModule.UniqueNames ∧
    declareProbes (declareProbes addModule).2 = declareProbes addModule ∧
    (declareProbes (declareProbes addModule).2).2.functions.length
      = (declareProbes addModule).2.functions.length ∧
    (declareProbes addModule).2.countNamed COVERAGE_FUNCTION_NAME = 1 ∧
    (declareProbes addModule).2.countNamed BINOP_OPERANDS_FUNCTION_NAME = 1 ∧
    (declareProbes addModule).2.getFunction COVERAGE_FUNCTION_NAME
      = some (declareProbes addModule).1.1.callee ∧
    (declareProbes addModule).2.getFunction BINOP_OPERANDS_FUNCTION_NAME
      = some (declareProbes addModule).1.2.callee ∧
    (addModule.getFunction COVERAGE_FUNCTION_NAME = Option.none →
      (declareProbes addModule).1.1.callee
        = ⟨COVERAGE_FUNCTION_NAME, coverageSignature, []⟩) ∧
    (addModule.getFunction BINOP_OPERANDS_FUNCTION_NAME = Option.none →
      (declareProbes addModule).1.2.callee
        = ⟨BINOP_OPERANDS_FUNCTION_NAME, binopSignature, []⟩) :=
  ⟨by decide, C6_declare_idempotent addModule (by decide)⟩

/-- C7 (as stated) fails: in `collisionModule` the name `__coverage__` is bound to
a function of signature `i32 ()`, which is not the signature of the coverage
probe, and the Dynamic Instrumenter returns normally: the existing function is
kept as it is and only `__binop_op__` is declared. -/
theorem C7_counterexample :
    collisionModule.getFunction COVERAGE_FUNCTION_NAME
      = some ⟨"__coverage__", ⟨Ty.int 32, []⟩, []⟩ ∧
    (⟨Ty.int 32, []⟩ : FunctionType) ≠ coverageSignature ∧
    DynamicAnalysisPass.run scenarioUtils collisionModule ""
      = some ⟨⟨"m", [⟨"__coverage__", ⟨Ty.int 32, []⟩, []⟩,
            ⟨"__binop_op__", binopSignature, []⟩]⟩,
          "Running Dynamic Analysis Pass on module m\n", PreservedAnalyses.none⟩ := by
  refine ⟨by decide, by decide, by rfl⟩

/-- C7 (amended): a name collision is not by itself fatal, the Dynamic
Instrumenter validating no signature.  Let every probe name be unbound, or
bound to a function of exactly the signature of the probe, or bound to a
function of another signature while no call to that probe is due (no located
instruction for `__coverage__`, no located binary operator for `__binop_op__`).
Then the pass returns normally with the result `none preserved`; every function
bound to a name before the pass, also one of a colliding signature under a probe
name, is bound to the same name with the same signature afterwards and no
further function of that name is declared; the pass keeps the original
instructions and inserts one call for each located instruction plus one for
each located binary operator; and every inserted call is a call to the function
its probe name is bound to in the result, carries the type of that function,
which is the signature of the probe, and has as many arguments as that
signature has parameters.  What happens when a call to a probe of another
signature is due is left open. -/
theorem C7_collision_not_fatal (U : Utils) (M : Module) (outs : String)
    (hU : M.UniqueAddrs)
    (hcov : (∀ F, M.getFunction COVERAGE_FUNCTION_NAME = some F →
        F.type = coverageSignature) ∨ (∀ x ∈ M.allInsts, x.isLocated = false))
    (hbin : (∀ F, M.getFunction BINOP_OPERANDS_FUNCTION_NAME = some F →
        F.type = binopSignature) ∨
      (∀ x ∈ M.allInsts, (x.isLocated && x.isBinaryOperator) = false)) :
    ∃ r : PassResult, DynamicAnalysisPass.run U M outs = some r ∧
      r.preserved = PreservedAnalyses.none ∧
      (∀ Name F, M.getFunction Name = some F →
        ∃ F', r.module.getFunction Name = some F' ∧ F'.name = F.name ∧ F'.type = F.type) ∧
      (∀ F, M.getFunction COVERAGE_FUNCTION_NAME = some F →
        r.module.countNamed COVERAGE_FUNCTION_NAME = M.countNamed COVERAGE_FUNCTION_NAME) ∧
      (∀ F, M.getFunction BINOP_OPERANDS_FUNCTION_NAME = some F →
        r.module.countNamed BINOP_OPERANDS_FUNCTION_NAME
          = M.countNamed BINOP_OPERANDS_FUNCTION_NAME) ∧
      r.module.allInsts.filter (fun x => !insertedInto M x) = M.allInsts ∧
      (r.module.allInsts.filter (insertedInto M)).length
        = M.allInsts.countP Instruction.isLocated
          + M.allInsts.countP (fun x => x.isLocated && x.isBinaryOperator) ∧
      ∀ p ∈ r.module.allInsts, insertedInto M p = true →
        (∃ args F', p.kind = InstKind.call COVERAGE_FUNCTION_NAME F'.type args ∧
          r.module.getFunction COVERAGE_FUNCTION_NAME = some F' ∧
          F'.type = coverageSignature ∧ args.length = F'.type.params.length) ∨
        (∃ args F', p.kind = InstKind.call BINOP_OPERANDS_FUNCTION_NAME F'.type args ∧
          r.module.getFunction BINOP_OPERANDS_FUNCTION_NAME = some F' ∧
          F'.type = binopSignature ∧ args.length = F'.type.params.length) := by
  obtain ⟨r, hrun, hpres, hnames, hget⟩ := DynamicAnalysisPass.run_names U M outs hU
  obtain ⟨r', hrun', hkeep, hcount, hins⟩ := DynamicAnalysisPass.run_module U M outs hU
  have e : r' = r := Option.some.inj (hrun'.symm.trans hrun)
  subst e
  refine ⟨r', hrun, hpres, ?_, ?_, ?_, hkeep, hcount, ?_⟩
  · intro Name F hF
    exact hget Name F (declareProbes_getFunction_of_some hF)
  · intro F hF
    rw [← declareProbes_countNamed_coverage hF]
    simp only [Module.countNamed, hnames]
  · intro F hF
    rw [← declareProbes_countNamed_binop hF]
    simp only [Module.countNamed, hnames]
  · intro p hp hpi
    obtain ⟨x, hx, n1, n2, hpx⟩ := hins p hp hpi
    rcases mem_probeCalls_kind hpx with ⟨hloc, args, hk, hlen⟩ | ⟨hlb, args, hk, hlen⟩
    · have hty : coverageType M = coverageSignature := by
        rcases hcov with h | h
        · exact coverageType_eq_signature h
        · rw [h x hx] at hloc
          cases hloc
      obtain ⟨cF, hcF⟩ := Option.isSome_iff_exists.1 (declareProbes_coverage_isSome M)
      obtain ⟨F', hF', _, hFt⟩ := hget _ cF hcF
      have hc : coverageType M = cF.type := by
        simp [coverageType, Module.calleeType, hcF]
      have hF't : F'.type = coverageSignature := by rw [hFt, ← hc, hty]
      refine Or.inl ⟨args, F', ?_, hF', hF't, ?_⟩
      · rw [hk, hFt, hc]
      · rw [hlen, hF't]
        rfl
    · have hty : binopType M = binopSignature := by
        rcases hbin with h | h
        · exact binopType_eq_signature h
        · rw [h x hx] at hlb
          cases hlb
      obtain ⟨bF, hbF⟩ := Option.isSome_iff_exists.1 (declareProbes_binop_isSome M)
      obtain ⟨F', hF', _, hFt⟩ := hget _ bF hbF
      have hc : binopType M = bF.type := by
        simp [binopType, Module.calleeType, hbF]
      have hF't : F'.type = binopSignature := by rw [hFt, ← hc, hty]
      refine Or.inr ⟨args, F', ?_, hF', hF't, ?_⟩
      · rw [hk, hFt, hc]
      · rw [hlen, hF't]
        rfl

/-- Witness of C7 (amended): `__binop_op__` is bound to a function of signature
`i32 ()`, the only instruction is a located return, so a coverage call is
inserted and no binary-operand call is due. -/
theorem C7_collision_not_fatal_witness :
    collisionBinopModule.UniqueAddrs ∧
    collisionBinopModule.getFunction BINOP_OPERANDS_FUNCTION_NAME
      = some ⟨"__binop_op__", ⟨Ty.int 32, []⟩, []⟩ ∧
    (⟨Ty.int 32, []⟩ : FunctionType) ≠ binopSignature ∧
    collisionBinopModule.allInsts.countP Instruction.isLocated = 1 ∧
    ∃ r : PassResult,
      DynamicAnalysisPass.run scenarioUtils collisionBinopModule "" = some r ∧
      r.preserved = PreservedAnalyses.none ∧
      (∀ Name F, collisionBinopModule.getFunction Name = some F →
        ∃ F', r.module.getFunction Name = some F' ∧ F'.name = F.name ∧ F'.type = F.type) ∧
      (∀ F, collisionBinopModule.getFunction COVERAGE_FUNCTION_NAME = some F →
        r.module.countNamed COVERAGE_FUNCTION_NAME
          = collisionBinopModule.countNamed COVERAGE_FUNCTION_NAME) ∧
      (∀ F, collisionBinopModule.getFunction BINOP_OPERANDS_FUNCTION_NAME = some F →
        r.module.countNamed BINOP_OPERANDS_FUNCTION_NAME
          = collisionBinopModule.countNamed BINOP_OPERANDS_FUNCTION_NAME) ∧
      r.module.allInsts.filter (fun x => !insertedInto collisionBinopModule x)
        = collisionBinopModule.allInsts ∧
      (r.module.allInsts.filter (insertedInto collisionBinopModule)).length
        = collisionBinopModule.allInsts.countP Instruction.isLocated
          + collisionBinopModule.allInsts.countP
              (fun x => x.isLocated && x.isBinaryOperator) ∧
      ∀ p ∈ r.module.allInsts, insertedInto collisionBinopModule p = true →
        (∃ args F', p.kind = InstKind.call COVERAGE_FUNCTION_NAME F'.type args ∧
          r.module.getFunction COVERAGE_FUNCTION_NAME = some F' ∧
          F'.type = coverageSignature ∧ args.length = F'.type.params.length) ∨
        (∃ args F', p.kind = InstKind.call BINOP_OPERANDS_FUNCTION_NAME F'.type args ∧
          r.module.getFunction BINOP_OPERANDS_FUNCTION_NAME = some F' ∧
          F'.type = binopSignature ∧ args.length = F'.type.params.length) :=
  ⟨by decide, by decide, by decide, by decide,
    C7_collision_not_fatal scenarioUtils collisionBinopModule "" (by decide)
      (Or.inl (fun F h => absurd h (by
        have hn : collisionBinopModule.getFunction COVERAGE_FUNCTION_NAME = Option.none := by
          decide
        rw [hn]
        exact fun e => nomatch e)))
      (Or.inr (by decide))⟩

/-- C10: the Dynamic Instrumenter is not idempotent on function bodies.  The
first run leaves the numbers `L` of located instructions and `B` of located
binary operators of a function unchanged, so a second run on the output of the
first inserts again `L` coverage calls and `B` binary-operand calls: after two
runs the function has gained `2 * (L + B)` instructions, while the second run
declares nothing and the module holds exactly one function of each probe
name. -/
theorem C10_second_run (U : Utils) (M : Module) (outs outs2 : String)
    (hU : M.UniqueAddrs) (hN : M.UniqueNames) (i : Nat) (F : Function)
    (hF : M.functions[i]? = some F) :
    ∃ (r1 r2 : PassResult) (F1 F2 : Function),
      DynamicAnalysisPass.run U M outs = some r1 ∧
      DynamicAnalysisPass.run U r1.module outs2 = some r2 ∧
      r1.module.functions[i]? = some F1 ∧ r2.module.functions[i]? = some F2 ∧
      F1.insts.countP Instruction.isLocated = F.insts.countP Instruction.isLocated ∧
      F1.insts.countP (fun x => x.isLocated && x.isBinaryOperator)
        = F.insts.countP (fun x => x.isLocated && x.isBinaryOperator) ∧
      (F2.insts.filter (insertedInto r1.module)).countP
          (fun x => x.isCallTo COVERAGE_FUNCTION_NAME)
        = (F1.insts.filter (insertedInto M)).countP
          (fun x => x.isCallTo COVERAGE_FUNCTION_NAME) ∧
      (F2.insts.filter (insertedInto r1.module)).countP
          (fun x => x.isCallTo BINOP_OPERANDS_FUNCTION_NAME)
        = (F1.insts.filter (insertedInto M)).countP
          (fun x => x.isCallTo BINOP_OPERANDS_FUNCTION_NAME) ∧
      F1.insts.length = F.insts.length + (F.insts.countP Instruction.isLocated
        + F.insts.countP (fun x => x.isLocated && x.isBinaryOperator)) ∧
      F2.insts.length = F.insts.length + 2 * (F.insts.countP Instruction.isLocated
        + F.insts.countP (fun x => x.isLocated && x.isBinaryOperator)) ∧
      r2.module.functions.length = r1.module.functions.length ∧
      r2.module.countNamed COVERAGE_FUNCTION_NAME = 1 ∧
      r2.module.countNamed BINOP_OPERANDS_FUNCTION_NAME = 1 := by
  obtain ⟨r1, F1, hrun1, hU1, hget1, hL1, hB1, hlen1, hc1, hb1⟩ :=
    DynamicAnalysisPass.run_located U M outs hU hF
  obtain ⟨r2, F2, hrun2, _, hget2, _, _, hlen2, hc2, hb2⟩ :=
    DynamicAnalysisPass.run_located U r1.module outs2 hU1 hget1
  obtain ⟨r1', hrun1', _, hnames1, _⟩ := DynamicAnalysisPass.run_names U M outs hU
  obtain ⟨r2', hrun2', _, hnames2, _⟩ := DynamicAnalysisPass.run_names U r1.module outs2 hU1
  have e1 : r1' = r1 := Option.some.inj (hrun1'.symm.trans hrun1)
  have e2 : r2' = r2 := Option.some.inj (hrun2'.symm.trans hrun2)
  subst e1 e2
  have hN1 := declareProbes_uniqueNames hN
  have hcm : COVERAGE_FUNCTION_NAME ∈ r1'.module.functions.map (fun F => F.name) := by
    rw [hnames1]
    exact Module.mem_names_of_getFunction_isSome (declareProbes_coverage_isSome M)
  have hbm : BINOP_OPERANDS_FUNCTION_NAME ∈ r1'.module.functions.map (fun F => F.name) := by
    rw [hnames1]
    exact Module.mem_names_of_getFunction_isSome (declareProbes_binop_isSome M)
  rw [declareProbes_of_names hcm hbm] at hnames2
  have hnd2 : (r2'.module.functions.map (fun F => F.name)).Nodup := by
    rw [hnames2, hnames1]
    exact hN1
  refine ⟨r1', r2', F1, F2, hrun1, hrun2, hget1, hget2, hL1, hB1, ?_, ?_, hlen1, ?_, ?_, ?_, ?_⟩
  · rw [hc2, hc1, hL1]
  · rw [hb2, hb1, hB1]
  · rw [hlen2, hlen1, hL1, hB1]
    omega
  · have := congrArg List.length hnames2
    simpa using this
  · exact List.count_eq_one_of_mem hnd2 (by rw [hnames2]; exact hcm)
  · exact List.count_eq_one_of_mem hnd2 (by rw [hnames2]; exact hbm)

/-- Witness of C10 at the scenario module. -/
theorem C10_second_run_witness :
    addModule.UniqueAddrs ∧ addModule.UniqueNames ∧
    ∃ (r1 r2 : PassResult) (F1 F2 : Function),
      DynamicAnalysisPass.run scenarioUtils addModule "" = some r1 ∧
      DynamicAnalysisPass.run scenarioUtils r1.module "" = some r2 ∧
      r1.module.functions[0]? = some F1 ∧ r2.module.functions[0]? = some F2 ∧
      F1.insts.countP Instruction.isLocated
        = [addInst, retInst].countP Instruction.isLocated ∧
      F1.insts.countP (fun x => x.isLocated && x.isBinaryOperator)
        = [addInst, retInst].countP (fun x => x.isLocated && x.isBinaryOperator) ∧
      (F2.insts.filter (insertedInto r1.module)).countP
          (fun x => x.isCallTo COVERAGE_FUNCTION_NAME)
        = (F1.insts.filter (insertedInto addModule)).countP
          (fun x => x.isCallTo COVERAGE_FUNCTION_NAME) ∧
      (F2.insts.filter (insertedInto r1.module)).countP
          (fun x => x.isCallTo BINOP_OPERANDS_FUNCTION_NAME)
        = (F1.insts.filter (insertedInto addModule)).countP
          (fun x => x.isCallTo BINOP_OPERANDS_FUNCTION_NAME) ∧
      F1.insts.length = [addInst, retInst].length
        + ([addInst, retInst].countP Instruction.isLocated
          + [addInst, retInst].countP (fun x => x.isLocated && x.isBinaryOperator)) ∧
      F2.insts.length = [addInst, retInst].length
        + 2 * ([addInst, retInst].countP Instruction.isLocated
          + [addInst, retInst].countP (fun x => x.isLocated && x.isBinaryOperator)) ∧
      r2.module.functions.length = r1.module.functions.length ∧
      r2.module.countNamed COVERAGE_FUNCTION_NAME = 1 ∧
      r2.module.countNamed BINOP_OPERANDS_FUNCTION_NAME = 1 :=
  ⟨by decide, by decide,
    C10_second_run scenarioUtils addModule "" "" (by decide) (by decide) 0
      ⟨"f", ⟨Ty.int 32, [Ty.int 32, Ty.int 32]⟩, [[addInst, retInst]]⟩ rfl⟩

/-- C8: the text the Static Reporter writes.  After the line naming the module,
the output is, function by function, nothing for a declaration and otherwise the
two header lines followed by the text of the body; the text of the body is the
concatenation, over the instructions in program order, of nothing for an
instruction without source location, the line `<l>, <c>` for an instruction
located at `(l, c)`, and for a located binary operator with opcode `o` and
operands `a`, `b` additionally the line `<nameOf(symbolOf(o))> on Line <l>,
Column <c> with first operand <variable(a)> and second operand <variable(b)>`. -/
theorem C8_static_report (U : Utils) (M : Module) (outs : String) :
    (StaticAnalysisPass.run U M outs).outs
      = outs ++ ("Running Static Analysis Pass on module " ++ M.name ++ "\n")
          ++ concatStrings (M.functions.map (functionText U)) := by
  obtain ⟨_, h2⟩ := locateFunctions_spec U M.functions []
    ⟨M, outs ++ ("Running " ++ "Static Analysis Pass" ++ " on module " ++ M.name ++ "\n")⟩
    (by simp)
  simp only [StaticAnalysisPass.run, PassState.print]
  simp only [List.length_nil] at h2
  rw [h2]
  simp only [String.append_assoc]
  rfl

/-- Scenario of C8: one `sub` at line 7, column 2 with the named operands `p`
and `q` is reported as a Subtraction on Line 7, Column 2 with first operand `p`
and second operand `q`. -/
theorem C8_static_report_witness :
    (StaticAnalysisPass.run scenarioUtils subModule "").outs
      = "Running Static Analysis Pass on module m\n"
        ++ "Running Static Analysis Pass on function f\n"
        ++ "Locating Instructions\n"
        ++ "7, 2\n"
        ++ "Subtraction on Line 7, Column 2 with first operand p and second operand q\n" :=
  (C8_static_report scenarioUtils subModule "").trans (by rfl)

/-- C9: the Static Reporter is read-only.  After `StaticAnalysisPass::run` the
module is the module it was given (same functions, same instructions with the
same operands in every function) and the declared result is `all preserved`. -/
theorem C9_static_read_only (U : Utils) (M : Module) (outs : String) :
    (StaticAnalysisPass.run U M outs).module = M ∧
    (StaticAnalysisPass.run U M outs).preserved = PreservedAnalyses.all ∧
    (StaticAnalysisPass.run U M outs).module.functions.length = M.functions.length ∧
    (StaticAnalysisPass.run U M outs).module.functions.map (fun F => F.insts.length)
      = M.functions.map (fun F => F.insts.length) ∧
    (StaticAnalysisPass.run U M outs).module.allInsts.map (fun x => x.kind)
      = M.allInsts.map (fun x => x.kind) := by
  have h : (StaticAnalysisPass.run U M outs).module = M := by
    obtain ⟨h1, _⟩ := locateFunctions_spec U M.functions []
      ⟨M, outs ++ ("Running " ++ "Static Analysis Pass" ++ " on module " ++ M.name ++ "\n")⟩
      (by simp)
    simp only [StaticAnalysisPass.run, PassState.print]
    simp only [List.length_nil] at h1
    exact h1
  refine ⟨h, rfl, by rw [h], by rw [h], by rw [h]⟩

end instrument
